import Mathlib

/-!
Verification of the `nest-crud` declarative query compiler.

This file gives a shallow embedding of the core translators of the
repository — the predicate compiler (`WhereQueryBuilder`), the join planner
(`JoinQueryBuilder`), the shared alias/column helper (`QueryBuilderHelper`)
and the orchestrator (`FindQueryBuilder`) — and proves the specified
properties about them.

Modelling conventions:
* JavaScript runtime values are modelled by `JsVal`; plain objects are
  association lists in key-insertion order, which is also the `for..in`
  iteration order used by the source.
* Thrown exceptions (`BadRequestException`, `Error`, runtime `TypeError`)
  become an `Except CrudError` result.
* JS `Set` objects are modelled as insertion-ordered duplicate-free lists
  (`setAdd` below), matching `Set.prototype.add` / `Array.from` semantics.
* Template-literal number formatting (used for parameter names) is modelled
  by `decRepr`, ordinary decimal notation.
-/

namespace NestCrud

/-- A JSON-ish JavaScript runtime value as it flows through the builders. -/
inductive JsVal where
  | null
  | undef
  | bool (b : Bool)
  | num (n : Int)
  | str (s : String)
  | arr (xs : List JsVal)
  | obj (fields : List (String × JsVal))
deriving Repr, Inhabited, BEq

/-- Errors thrown by the builders: `BadRequestException` (client/validation
errors), plain `Error` (structural errors from the join planner), and the
JavaScript runtime `TypeError` (e.g. destructuring a non-iterable). -/
inductive CrudError where
  | badRequest (msg : String)
  | internal (msg : String)
  | typeError (msg : String)
deriving Repr, DecidableEq

/-- Decimal digit list of a natural number, most significant first; models
the template-literal formatting of the parameter counter. -/
def decDigits (n : Nat) : List Char :=
  if n < 10 then [Nat.digitChar n]
  else decDigits (n / 10) ++ [Nat.digitChar (n % 10)]
decreasing_by exact Nat.div_lt_self (by omega) (by omega)

/-- Decimal string of a natural number (JS number-to-string on a counter). -/
def decRepr (n : Nat) : String := String.mk (decDigits n)

/-- Evaluation of a digit list back to a number, used to invert `decDigits`. -/
def decVal (cs : List Char) : Nat :=
  cs.foldl (fun a c => a * 10 + (c.toNat - 48)) 0

theorem digitChar_toNat : ∀ m < 10, (Nat.digitChar m).toNat = 48 + m := by decide

theorem digitChar_isDigit : ∀ m < 10, (Nat.digitChar m).isDigit = true := by decide

theorem decVal_append_digit (cs : List Char) (c : Char) :
    decVal (cs ++ [c]) = decVal cs * 10 + (c.toNat - 48) := by
  simp [decVal, List.foldl_append]

theorem decVal_decDigits (n : Nat) : decVal (decDigits n) = n := by
  induction n using Nat.strong_induction_on with
  | _ n ih =>
    rw [decDigits]
    by_cases h : n < 10
    · simp only [if_pos h]
      simp [decVal, digitChar_toNat n h]
    · simp only [if_neg h]
      rw [decVal_append_digit]
      rw [ih (n / 10) (Nat.div_lt_self (by omega) (by omega))]
      rw [digitChar_toNat (n % 10) (Nat.mod_lt _ (by omega))]
      omega

theorem decDigits_inj {m n : Nat} (h : decDigits m = decDigits n) : m = n := by
  have := decVal_decDigits m
  rw [h, decVal_decDigits n] at this
  omega

theorem decDigits_isDigit (n : Nat) : ∀ c ∈ decDigits n, c.isDigit = true := by
  induction n using Nat.strong_induction_on with
  | _ n ih =>
    rw [decDigits]
    by_cases h : n < 10
    · simp only [if_pos h]
      intro c hc
      simp only [List.mem_singleton] at hc
      subst hc
      exact digitChar_isDigit n h
    · simp only [if_neg h]
      intro c hc
      rcases List.mem_append.mp hc with h1 | h2
      · exact ih (n / 10) (Nat.div_lt_self (by omega) (by omega)) c h1
      · simp only [List.mem_singleton] at h2
        subst h2
        exact digitChar_isDigit (n % 10) (Nat.mod_lt _ (by omega))

theorem underscore_not_mem_decDigits (n : Nat) : '_' ∉ decDigits n := by
  intro h
  have := decDigits_isDigit n '_' h
  simp [Char.isDigit] at this

/-- The three shapes of parameter-map keys one compile slot can produce:
`<pfx><j>` for ordinary comparisons, `<pfx><j>_0` / `<pfx><j>_1` for the
two BETWEEN bounds. -/
inductive ParamTag where
  | plain
  | lo
  | hi
deriving Repr, DecidableEq

def tagSuffix : ParamTag → List Char
  | .plain => []
  | .lo => ['_', '0']
  | .hi => ['_', '1']

/-- The parameter-map key produced by compile slot `j` with tag `t`. -/
def keyOf (pfx : String) (j : Nat) (t : ParamTag) : String :=
  String.mk (pfx.data ++ decDigits j ++ tagSuffix t)

theorem string_data_append (a b : String) : (a ++ b).data = a.data ++ b.data := rfl

theorem keyOf_plain (pfx : String) (j : Nat) : keyOf pfx j .plain = pfx ++ decRepr j := by
  simp [keyOf, tagSuffix, decRepr, string_data_append]
  rfl

theorem keyOf_lo (pfx : String) (j : Nat) : keyOf pfx j .lo = pfx ++ decRepr j ++ "_0" := rfl

theorem keyOf_hi (pfx : String) (j : Nat) : keyOf pfx j .hi = pfx ++ decRepr j ++ "_1" := rfl

theorem keyOf_inj {pfx : String} {j j' : Nat} {t t' : ParamTag}
    (h : keyOf pfx j t = keyOf pfx j' t') : j = j' ∧ t = t' := by
  have hd : pfx.data ++ decDigits j ++ tagSuffix t
      = pfx.data ++ decDigits j' ++ tagSuffix t' := congrArg String.data h
  rw [List.append_assoc, List.append_assoc] at hd
  have hd2 : decDigits j ++ tagSuffix t = decDigits j' ++ tagSuffix t' :=
    List.append_cancel_left hd
  cases t <;> cases t' <;> simp only [tagSuffix, List.append_nil] at hd2
  · exact ⟨decDigits_inj hd2, rfl⟩
  · exact absurd (hd2 ▸ List.mem_append_right (decDigits j') (by simp))
      (underscore_not_mem_decDigits j)
  · exact absurd (hd2 ▸ List.mem_append_right (decDigits j') (by simp))
      (underscore_not_mem_decDigits j)
  · exact absurd (hd2.symm ▸ List.mem_append_right (decDigits j) (by simp))
      (underscore_not_mem_decDigits j')
  · obtain ⟨h1, _⟩ := List.append_inj' hd2 rfl
    exact ⟨decDigits_inj h1, rfl⟩
  · obtain ⟨_, h2⟩ := List.append_inj' hd2 rfl
    simp at h2
  · exact absurd (hd2.symm ▸ List.mem_append_right (decDigits j) (by simp))
      (underscore_not_mem_decDigits j')
  · obtain ⟨_, h2⟩ := List.append_inj' hd2 rfl
    simp at h2
  · obtain ⟨h1, _⟩ := List.append_inj' hd2 rfl
    exact ⟨decDigits_inj h1, rfl⟩

/-! ## WhereQueryBuilder (src/unnamed/part_011, lines 1-428)

The predicate compiler. `WhereCtx` packages the collaborators the class
reads from `QueryBuilderHelper`: the connection dialect, the
field-to-column resolver `getFieldWithAlias`, and the parameter-name
prefix (default `where_param_`). -/

/-- The operator enum consumed by `parseWhereObjectToQueryAndParams`.
`unsupported key` represents an operator-object key that matches no enum
member (the TS code casts the raw key string to the enum, so unknown keys
reach the switch and hit its `default` branch). -/
inductive WhereOperatorEnum where
  | EQ
  | NOT_EQ
  | GT
  | GT_OR_EQ
  | LT
  | LT_OR_EQ
  | LIKE
  | NOT_LIKE
  | ILIKE
  | NOT_ILIKE
  | STARTS_WITH
  | ENDS_WITH
  | ISTARTS_WITH
  | IENDS_WITH
  | IN_L
  | NOT_IN_L
  | IN
  | NOT_IN
  | CONT_ARR
  | INTERSECTS_ARR
  | IS_NULL
  | IS_NOT_NULL
  | BETWEEN
  | NOT_BETWEEN
  | IS_TRUE
  | IS_FALSE
  | unsupported (key : String)
deriving Repr, DecidableEq

/-- String spelling of an operator, used in thrown error messages.
The first eighteen spellings are the enum values of
`packages/nest-crud-request/src/lib/query-builder.ts` (present in src).
Modelled from the spec: the prefix/suffix, case-insensitive-membership and
array-containment spellings come from the nest-crud `types` module, which
is absent from src (spec §6 only says the vocabulary has such variants);
their literal spellings are modelled and no claim depends on them. -/
def opName : WhereOperatorEnum → String
  | .EQ => "$eq"
  | .NOT_EQ => "$ne"
  | .GT => "$gt"
  | .GT_OR_EQ => "$gte"
  | .LT => "$lt"
  | .LT_OR_EQ => "$lte"
  | .IN => "$in"
  | .NOT_IN => "$notIn"
  | .LIKE => "$like"
  | .NOT_LIKE => "$notLike"
  | .ILIKE => "$iLike"
  | .NOT_ILIKE => "$notIlike"
  | .IS_NULL => "$isNull"
  | .IS_NOT_NULL => "$isNotNull"
  | .BETWEEN => "$between"
  | .NOT_BETWEEN => "$notBetween"
  | .IS_TRUE => "$isTrue"
  | .IS_FALSE => "$isFalse"
  | .STARTS_WITH => "$startsWith"
  | .ENDS_WITH => "$endsWith"
  | .ISTARTS_WITH => "$iStartsWith"
  | .IENDS_WITH => "$iEndsWith"
  | .IN_L => "$inL"
  | .NOT_IN_L => "$notInL"
  | .CONT_ARR => "$contArr"
  | .INTERSECTS_ARR => "$intersectsArr"
  | .unsupported key => key

/-- The cast `op as WhereOperatorEnum` applied to a raw operator-object key. -/
def opOfString (s : String) : WhereOperatorEnum :=
  match s with
  | "$eq" => .EQ
  | "$ne" => .NOT_EQ
  | "$gt" => .GT
  | "$gte" => .GT_OR_EQ
  | "$lt" => .LT
  | "$lte" => .LT_OR_EQ
  | "$in" => .IN
  | "$notIn" => .NOT_IN
  | "$like" => .LIKE
  | "$notLike" => .NOT_LIKE
  | "$iLike" => .ILIKE
  | "$notIlike" => .NOT_ILIKE
  | "$isNull" => .IS_NULL
  | "$isNotNull" => .IS_NOT_NULL
  | "$between" => .BETWEEN
  | "$notBetween" => .NOT_BETWEEN
  | "$isTrue" => .IS_TRUE
  | "$isFalse" => .IS_FALSE
  | "$startsWith" => .STARTS_WITH
  | "$endsWith" => .ENDS_WITH
  | "$iStartsWith" => .ISTARTS_WITH
  | "$iEndsWith" => .IENDS_WITH
  | "$inL" => .IN_L
  | "$notInL" => .NOT_IN_L
  | "$contArr" => .CONT_ARR
  | "$intersectsArr" => .INTERSECTS_ARR
  | other => .unsupported other

/-- `Array.prototype.join(sep)`. -/
def joinParts (sep : String) (parts : List String) : String :=
  match parts with
  | [] => ""
  | h :: t => t.foldl (fun acc s => acc ++ sep ++ s) h

/-- JS string conversion `String(v)` / template-literal interpolation. -/
def jsToString (v : JsVal) : String :=
  match v with
  | .null => "null"
  | .undef => "undefined"
  | .bool true => "true"
  | .bool false => "false"
  | .num n => if n < 0 then "-" ++ decRepr n.natAbs else decRepr n.toNat
  | .str s => s
  | .arr xs => joinParts "," (xs.attach.map (fun x => jsToString x.1))
  | .obj _ => "[object Object]"
decreasing_by
  have := List.sizeOf_lt_of_mem x.2
  simp only [JsVal.arr.sizeOf_spec]
  omega

/-- JS truthiness test on a value. -/
def jsFalsy (v : JsVal) : Bool :=
  match v with
  | .null => true
  | .undef => true
  | .bool b => !b
  | .num n => n == 0
  | .str s => s == ""
  | _ => false

/-- A compiled parameter map. `Object.assign` accumulation is modelled by
list append; the compiled keys are pairwise distinct (proved below), so
append and JS key-overwriting assignment agree. -/
abbrev Params := List (String × JsVal)

/-- Collaborators of `WhereQueryBuilder` supplied by `QueryBuilderHelper`:
the connection dialect string, `getFieldWithAlias`, and the
parameter-name prefix field of the class (default `where_param_`). -/
structure WhereCtx where
  dbType : String
  getFieldWithAlias : String → String
  pfx : String := "where_param_"

/-- `WhereQueryBuilder.convertToText`: dialect-specific cast of a column to
text for LIKE-family operations. -/
def convertToText (dbType columnName : String) : String :=
  match dbType with
  | "postgres" => columnName ++ "::text"
  | "postgresql" => columnName ++ "::text"
  | "sqlite" => "CAST(" ++ columnName ++ " AS TEXT)"
  | "better-sqlite3" => "CAST(" ++ columnName ++ " AS TEXT)"
  | "mysql" => "CAST(" ++ columnName ++ " AS CHAR)"
  | "mariadb" => "CAST(" ++ columnName ++ " AS CHAR)"
  | "mssql" => "CAST(" ++ columnName ++ " AS NVARCHAR(MAX))"
  | "oracle" => "TO_CHAR(" ++ columnName ++ ")"
  | _ => "CAST(" ++ columnName ++ " AS VARCHAR)"

/-- `WhereQueryBuilder.generateLikeQuery`. -/
def generateLikeQuery (dbType columnName paramName : String)
    (isNegated isCaseInsensitive : Bool) : String :=
  let negation := if isNegated then "NOT " else ""
  let textColumn := convertToText dbType columnName
  if isCaseInsensitive then
    "LOWER(" ++ textColumn ++ ") " ++ negation ++ "LIKE LOWER(:" ++ paramName ++ ")"
  else
    textColumn ++ " " ++ negation ++ "LIKE :" ++ paramName

/-- JS array destructuring `const [start, end] = value` for the BETWEEN
operators: arrays yield their first two elements (missing ones are
`undefined`), strings iterate their characters, anything else throws a
runtime `TypeError`. -/
def destructurePair (v : JsVal) : Except CrudError (JsVal × JsVal) :=
  match v with
  | .arr xs => .ok (xs.getD 0 .undef, xs.getD 1 .undef)
  | .str s =>
    .ok ((s.data.get? 0).elim JsVal.undef (fun c => .str (String.mk [c])),
      (s.data.get? 1).elim JsVal.undef (fun c => .str (String.mk [c])))
  | _ => .error (.typeError "value is not iterable")

/-- Tests `this.helper.dbType !== 'postgres' && this.helper.dbType !== 'postgresql'`. -/
def nonPostgres (dbType : String) : Bool :=
  dbType != "postgres" && dbType != "postgresql"

/-- `WhereQueryBuilder.parseWhereObjectToQueryAndParams`: compiles one
comparison into a SQL fragment and its parameters.  The slot index `idx` is
the value of the post-incremented `paramIndex` counter for this call; the
caller always advances the counter by one per call (the source increments
it eagerly when forming `paramName`). -/
def parseWhereObjectToQueryAndParams (ctx : WhereCtx) (idx : Nat)
    (columnName : String) (value : JsVal) (operator : WhereOperatorEnum) :
    Except CrudError (String × Params) :=
  let paramName := ctx.pfx ++ decRepr idx
  match operator with
  | .EQ => .ok (columnName ++ " = :" ++ paramName, [(paramName, value)])
  | .NOT_EQ => .ok (columnName ++ " != :" ++ paramName, [(paramName, value)])
  | .GT => .ok (columnName ++ " > :" ++ paramName, [(paramName, value)])
  | .GT_OR_EQ => .ok (columnName ++ " >= :" ++ paramName, [(paramName, value)])
  | .LT => .ok (columnName ++ " < :" ++ paramName, [(paramName, value)])
  | .LT_OR_EQ => .ok (columnName ++ " <= :" ++ paramName, [(paramName, value)])
  | .LIKE =>
    .ok (generateLikeQuery ctx.dbType columnName paramName false false,
      [(paramName, value)])
  | .NOT_LIKE =>
    .ok (generateLikeQuery ctx.dbType columnName paramName true false,
      [(paramName, value)])
  | .ILIKE =>
    .ok (generateLikeQuery ctx.dbType columnName paramName false true,
      [(paramName, value)])
  | .NOT_ILIKE =>
    .ok (generateLikeQuery ctx.dbType columnName paramName true true,
      [(paramName, value)])
  | .STARTS_WITH =>
    .ok (generateLikeQuery ctx.dbType columnName paramName false false,
      [(paramName, .str (jsToString value ++ "%"))])
  | .ENDS_WITH =>
    .ok (generateLikeQuery ctx.dbType columnName paramName false false,
      [(paramName, .str ("%" ++ jsToString value))])
  | .ISTARTS_WITH =>
    .ok (generateLikeQuery ctx.dbType columnName paramName false true,
      [(paramName, .str (jsToString value ++ "%"))])
  | .IENDS_WITH =>
    .ok (generateLikeQuery ctx.dbType columnName paramName false true,
      [(paramName, .str ("%" ++ jsToString value))])
  | .IN_L =>
    match value with
    | .arr [] => .ok ("1 = 0", [])
    | .arr xs =>
      let textColumn := convertToText ctx.dbType columnName
      .ok ("LOWER(" ++ textColumn ++ ") IN (:..." ++ paramName ++ ")",
        [(paramName, .arr (xs.map (fun v => .str (jsToString v).toLower)))])
    | _ => .error (.badRequest ("Operator " ++ opName operator ++ " requires an array value"))
  | .NOT_IN_L =>
    match value with
    | .arr xs =>
      let textColumn := convertToText ctx.dbType columnName
      .ok ("LOWER(" ++ textColumn ++ ") NOT IN (:..." ++ paramName ++ ")",
        [(paramName, .arr (xs.map (fun v => .str (jsToString v).toLower)))])
    | _ => .error (.badRequest ("Operator " ++ opName operator ++ " requires an array value"))
  | .IN =>
    match value with
    | .arr [] => .ok ("1 = 0", [])
    | _ => .ok (columnName ++ " IN (:..." ++ paramName ++ ")", [(paramName, value)])
  | .NOT_IN =>
    .ok (columnName ++ " NOT IN (:..." ++ paramName ++ ")", [(paramName, value)])
  | .CONT_ARR =>
    match value with
    | .arr [] => .ok ("1 = 0", [])
    | .arr _ =>
      if nonPostgres ctx.dbType then
        .error (.badRequest ("Operator " ++ opName operator ++ " is only supported for PostgreSQL"))
      else
        .ok (columnName ++ " @> ARRAY[:..." ++ paramName ++ "]::text[]",
          [(paramName, value)])
    | _ => .error (.badRequest ("Operator " ++ opName operator ++ " requires an array value"))
  | .INTERSECTS_ARR =>
    match value with
    | .arr [] => .ok ("1 = 0", [])
    | .arr _ =>
      if nonPostgres ctx.dbType then
        .error (.badRequest ("Operator " ++ opName operator ++ " is only supported for PostgreSQL"))
      else
        .ok (columnName ++ " && ARRAY[:..." ++ paramName ++ "]::text[]",
          [(paramName, value)])
    | _ => .error (.badRequest ("Operator " ++ opName operator ++ " requires an array value"))
  | .IS_NULL => .ok (columnName ++ " IS NULL", [])
  | .IS_NOT_NULL => .ok (columnName ++ " IS NOT NULL", [])
  | .BETWEEN => do
    let (start, stop) ← destructurePair value
    .ok (columnName ++ " BETWEEN :" ++ paramName ++ "_0 AND :" ++ paramName ++ "_1",
      [(paramName ++ "_0", start), (paramName ++ "_1", stop)])
  | .NOT_BETWEEN => do
    let (start, stop) ← destructurePair value
    .ok (columnName ++ " NOT BETWEEN :" ++ paramName ++ "_0 AND :" ++ paramName ++ "_1",
      [(paramName ++ "_0", start), (paramName ++ "_1", stop)])
  | .IS_TRUE => .ok (columnName ++ " IS TRUE", [])
  | .IS_FALSE => .ok (columnName ++ " IS FALSE", [])
  | .unsupported key => .error (.badRequest ("Unsupported operator: " ++ key))

mutual

/-- `WhereQueryBuilder.buildWhereQueryAndParams`: recursively compiles a
condition into a query string, parameters and the advanced counter.  A
non-object input has no own enumerable keys to iterate, so it compiles to
the empty query (the typed API only passes plain objects here). -/
def buildWhereQueryAndParams (ctx : WhereCtx) (condition : JsVal) (idx : Nat) :
    Except CrudError (String × Params × Nat) :=
  match condition with
  | .obj [] => .ok ("", [], idx)
  | .obj fields => do
    let (parts, params, idx') ← buildWhereEntries ctx fields idx
    .ok (joinParts " AND " parts, params, idx')
  | _ => .ok ("", [], idx)

/-- The `for (const key in condition)` loop body sequence of
`buildWhereQueryAndParams`, accumulating `queryParts` and `params`. -/
def buildWhereEntries (ctx : WhereCtx) (entries : List (String × JsVal)) (idx : Nat) :
    Except CrudError (List String × Params × Nat) :=
  match entries with
  | [] => .ok ([], [], idx)
  | (key, value) :: rest => do
    let (parts1, params1, idx1) ← buildWhereEntry ctx key value idx
    let (parts2, params2, idx2) ← buildWhereEntries ctx rest idx1
    .ok (parts1 ++ parts2, params1 ++ params2, idx2)

/-- One iteration of the key loop: logical-group keys, operator-object
values, or the simple-equality fallback. -/
def buildWhereEntry (ctx : WhereCtx) (key : String) (value : JsVal) (idx : Nat) :
    Except CrudError (List String × Params × Nat) :=
  if key = "$and" ∨ key = "$or" then
    match value with
    | .arr [] => .ok ([], [], idx)
    | .arr subs => do
      let (subParts, params, idx') ← buildWhereGroup ctx subs idx
      if subParts.isEmpty then
        .ok ([], params, idx')
      else
        let operator := if key = "$and" then " AND " else " OR "
        .ok ([if subParts.length > 1 then
            "(" ++ joinParts operator subParts ++ ")"
          else joinParts operator subParts], params, idx')
    | _ => .ok ([], [], idx)
  else
    match value with
    | .obj ops => buildWhereOperators ctx key ops idx
    | _ => do
      let column := ctx.getFieldWithAlias key
      let (q, prms) ← parseWhereObjectToQueryAndParams ctx idx column value .EQ
      .ok (if q = "" then [] else [q], if q = "" then [] else prms, idx + 1)

/-- The loop over the elements of a `$and`/`$or` array: compiles each
element, keeps the parenthesised fragment and parameters of the non-empty
ones, and discards the rest. -/
def buildWhereGroup (ctx : WhereCtx) (subs : List JsVal) (idx : Nat) :
    Except CrudError (List String × Params × Nat) :=
  match subs with
  | [] => .ok ([], [], idx)
  | sub :: rest => do
    let (q, prms, idx1) ← buildWhereQueryAndParams ctx sub idx
    let (parts, params, idx2) ← buildWhereGroup ctx rest idx1
    .ok ((if q = "" then [] else ["(" ++ q ++ ")"]) ++ parts,
      (if q = "" then [] else prms) ++ params, idx2)

/-- The loop over the keys of an operator-object value. -/
def buildWhereOperators (ctx : WhereCtx) (key : String)
    (ops : List (String × JsVal)) (idx : Nat) :
    Except CrudError (List String × Params × Nat) :=
  match ops with
  | [] => .ok ([], [], idx)
  | (opKey, val) :: rest => do
    let column := ctx.getFieldWithAlias key
    let (q, prms) ← parseWhereObjectToQueryAndParams ctx idx column val (opOfString opKey)
    let (parts, params, idx') ← buildWhereOperators ctx key rest (idx + 1)
    .ok ((if q = "" then [] else [q]) ++ parts,
      (if q = "" then [] else prms) ++ params, idx')

end

/-- `WhereQueryBuilder.build`: applies the compiled condition to the query
builder, modelled as the list of `(query, params)` pairs passed to
`andWhere` so far. -/
def whereBuild (ctx : WhereCtx) (whereObject : Option JsVal)
    (wheres : List (String × Params)) (idx : Nat) :
    Except CrudError (List (String × Params) × Nat) :=
  match whereObject with
  | none => .ok (wheres, idx)
  | some w =>
    if jsFalsy w then .ok (wheres, idx)
    else
      match w with
      | .arr [] => .ok (wheres, idx)
      | .obj [] => .ok (wheres, idx)
      | .arr xs => do
        let (q, prms, idx') ← buildWhereQueryAndParams ctx (.obj [("$and", .arr xs)]) idx
        .ok (if q = "" then wheres else wheres ++ [(q, prms)], idx')
      | w' => do
        let (q, prms, idx') ← buildWhereQueryAndParams ctx w' idx
        .ok (if q = "" then wheres else wheres ++ [(q, prms)], idx')

/-! ## JoinQueryBuilder (src/unnamed/part_011, lines 429-635)

The join planner.  `String.prototype.split('.')` and `Array.prototype.join`
are modelled at the character-list level; JS `Set` insertion is `setAdd`. -/

/-- `Set.prototype.add`: appends an element unless already present,
preserving first-insertion order. -/
def setAdd (l : List String) (x : String) : List String :=
  if x ∈ l then l else l ++ [x]

/-- `new Set(list)` materialised in iteration order. -/
def jsSetOf (l : List String) : List String := l.foldl setAdd []

/-- `path.split('.')`. -/
def segsOf (s : String) : List String := (s.data.splitOn '.').map String.mk

/-- `segments.join('.')`. -/
def dotJoin (parts : List String) : String :=
  String.mk (List.intercalate ['.'] (parts.map String.data))

/-- The implicit-ancestor paths `segments.slice(0, i).join('.')` for
`i = 1 .. segments.length` generated by `collectAllNeededRelations`. -/
def prefixPaths (relationPath : String) : List String :=
  (List.range (segsOf relationPath).length).map
    (fun i => dotJoin ((segsOf relationPath).take (i + 1)))

/-- `JoinQueryBuilder.collectAllNeededRelations` applied to the config keys. -/
def collectAllNeededRelations (paths : List String) : List String :=
  paths.foldl (fun acc p => (prefixPaths p).foldl setAdd acc) []

/-- `path.split('.').length`, the sort key of the planner. -/
def pathDepth (p : String) : Nat := (segsOf p).length

/-- Stable insertion of one element into a depth-sorted list: placed after
every element of smaller-or-equal depth, as a stable JS `Array.sort` with
comparator `depthA - depthB` would. -/
def insertByDepth (x : String) : List String → List String
  | [] => [x]
  | y :: ys => if pathDepth y ≤ pathDepth x then y :: insertByDepth x ys else x :: y :: ys

/-- The planner's stable sort by ascending path depth. -/
def sortByDepth (l : List String) : List String :=
  l.foldl (fun acc x => insertByDepth x acc) []

inductive JoinType where
  | left
  | inner
deriving Repr, DecidableEq

/-- The relation descriptor returned by
`QueryBuilderHelper.getRelationMetadata` (the fields `setJoin` reads):
join source path, allowed target columns, and target primary keys.  The
builders consume this resolver as an interface; `getRelationMetadata`
always populates `allowedColumns` with the (possibly empty) target column
list, so it is modelled as a plain list. -/
structure RelationMeta where
  path : String
  allowedColumns : List String
  primaryColumns : List String
deriving Repr, DecidableEq

/-- A relation resolver: `null` for an unresolvable path. -/
abbrev Resolver := String → Option RelationMeta

/-- `RelationObjectValue` (its `where` member is never read by `setJoin`
and is omitted). -/
structure RelationObjectValue where
  select : Option (List String) := none
  joinType : Option JoinType := none
deriving Repr, DecidableEq

/-- A value of the normalized relation object: `boolean | RelationObjectValue`. -/
inductive RelConfig where
  | bool (b : Bool)
  | cfg (c : RelationObjectValue)
deriving Repr, DecidableEq

/-- `RelationOptions`: `string | string[] | RelationObject` (arrays may nest
through the recursive normalisation). -/
inductive RelationOptions where
  | str (s : String)
  | arr (xs : List RelationOptions)
  | obj (entries : List (String × RelConfig))
deriving Repr

/-- One join emitted on the query builder:
`builder.leftJoin/innerJoin(path, alias)`. -/
structure Join where
  joinType : JoinType
  path : String
  joinAlias : String
deriving Repr, DecidableEq

/-- The mutable state `setJoin` touches: the builder's join list and the
helper's `selectedFields` set. -/
structure JoinState where
  joins : List Join := []
  selectedFields : List String := []
deriving Repr, DecidableEq

/-- Modelled from the spec: `isArrayFull` lives in the nest-crud `utils`
module, which is absent from src; per its uses
(`isArrayFull(options.select) && options.select` guarding `.filter`) and
spec §4.3 ("if the config specifies an explicit `select` list"), it tests
for a non-empty array. -/
def isArrayFull : Option (List String) → Bool
  | some (_ :: _) => true
  | _ => false

/-- `JoinQueryBuilder.setJoin`. -/
def setJoin (resolver : Resolver) (name : String) (options : RelationObjectValue)
    (st : JoinState) : Except CrudError JoinState :=
  match segsOf name with
  | [_] =>
    match resolver name with
    | none => .error (.internal ("Relation '" ++ name ++ "' not found"))
    | some allowedRelation =>
      let relationType := if options.joinType = some JoinType.inner then JoinType.inner else .left
      let al := name
      let st1 := { st with joins :=
        st.joins ++ [({ joinType := relationType, path := allowedRelation.path, joinAlias := al } : Join)] }
      let columns :=
        if isArrayFull options.select then
          (options.select.getD []).filter
            (fun column => allowedRelation.allowedColumns.any (fun allowed => allowed == column))
        else allowedRelation.allowedColumns
      let select := jsSetOf ((allowedRelation.primaryColumns ++ columns).map
        (fun col => al ++ "." ++ col))
      .ok { st1 with selectedFields := select.foldl setAdd st1.selectedFields }
  | segments =>
    let relationName := segments.getLastD ""
    let parentAlias := joinParts "_" segments.dropLast
    let currentAlias := String.mk (name.data.map (fun c => if c = '.' then '_' else c))
    let relationType := if options.joinType = some JoinType.inner then JoinType.inner else .left
    let joinPath := parentAlias ++ "." ++ relationName
    let st1 := { st with joins :=
      st.joins ++ [({ joinType := relationType, path := joinPath, joinAlias := currentAlias } : Join)] }
    match resolver name with
    | none => .ok st1
    | some allowedRelation =>
      if isArrayFull options.select then
        let filteredColumns := (options.select.getD []).filter
          (fun column => allowedRelation.allowedColumns.any (fun allowed => allowed == column))
        let select := filteredColumns.map (fun col => currentAlias ++ "." ++ col)
        .ok { st1 with selectedFields := select.foldl setAdd st1.selectedFields }
      else
        let columns := allowedRelation.allowedColumns
        let select := jsSetOf ((allowedRelation.primaryColumns ++ columns).map
          (fun col => currentAlias ++ "." ++ col))
        .ok { st1 with selectedFields := select.foldl setAdd st1.selectedFields }

/-- `Object.assign(result, relation)` on normalized relation objects:
existing keys keep their position and get the new value, new keys append. -/
def objAssignRel (target src : List (String × RelConfig)) : List (String × RelConfig) :=
  src.foldl (fun acc kv =>
    if acc.any (fun e => e.1 == kv.1) then
      acc.map (fun e => if e.1 == kv.1 then (e.1, kv.2) else e)
    else acc ++ [kv]) target

/-- `JoinQueryBuilder.parseJoinConfig`. -/
def parseJoinConfig : RelationOptions → List (String × RelConfig)
  | .str s => [(s, .bool true)]
  | .arr xs => (xs.attach.map (fun c => parseJoinConfig c.1)).foldl objAssignRel []
  | .obj entries => entries
decreasing_by
  have := List.sizeOf_lt_of_mem c.2
  simp only [RelationOptions.arr.sizeOf_spec]
  omega

/-- The per-path configuration used by `JoinQueryBuilder.build`:
`joinConfig[relationPath] || {joinType: 'left'}`, with the boolean form and
the spread `{joinType: 'left', ...config}` applied. -/
def effectiveOptions (joinConfig : List (String × RelConfig)) (relationPath : String) :
    RelationObjectValue :=
  match joinConfig.lookup relationPath with
  | some (.cfg c) => { c with joinType := some (c.joinType.getD .left) }
  | _ => { joinType := some JoinType.left }

/-- The `for (const relationPath of sortedRelations)` loop of
`JoinQueryBuilder.build`. -/
def processRelations (resolver : Resolver) (joinConfig : List (String × RelConfig)) :
    List String → JoinState → Except CrudError JoinState
  | [], st => .ok st
  | p :: rest, st => do
    let st' ← setJoin resolver p (effectiveOptions joinConfig p) st
    processRelations resolver joinConfig rest st'

/-- `JoinQueryBuilder.build`. -/
def joinBuild (resolver : Resolver) (config : RelationOptions) (st : JoinState) :
    Except CrudError JoinState :=
  let joinConfig := parseJoinConfig config
  let allNeededRelations := collectAllNeededRelations (joinConfig.map Prod.fst)
  let sortedRelations := sortByDepth allNeededRelations
  processRelations resolver joinConfig sortedRelations st

/-! ## QueryBuilderHelper (query-builder-helper.ts) and
FindQueryBuilder (find-query-builder.ts) -/

/-- `QueryBuilderHelper.getIdentifierQuote`: backtick for the
MySQL/MariaDB family, double quote otherwise.  The source returns the
one-character string; the character is modelled. -/
def getIdentifierQuote (dbType : String) : Char :=
  if dbType = "mysql" ∨ dbType = "mariadb" then '`' else '"'

/-- `QueryBuilderHelper.cleanFieldName`:
`fieldName.replace(new RegExp(quote, 'g'), '')` — for the one-character
quote pattern this removes every occurrence of the quote character. -/
def cleanFieldName (dbType : String) (fieldName : String) : String :=
  let quote := getIdentifierQuote dbType
  String.mk (fieldName.data.filter (fun c => c ≠ quote))

/-- The repository/entity metadata and helper collaborators
`FindQueryBuilder` reads: root alias (`metadata.targetName`), dialect,
entity column names, the soft-delete column if any, the relation resolver,
and `getFieldWithAlias` of the shared helper. -/
structure EntityMeta where
  targetName : String
  dbType : String
  entityColumns : List String
  deleteDateColumn : Option String
  resolver : Resolver
  getFieldWithAlias : String → String

/-- The TypeORM `FindManyOptions` subset the orchestrator sets. -/
structure FindOptionsState where
  take : Option Int := none
  skip : Option Int := none
  withDeleted : Bool := false
deriving Repr, DecidableEq

inductive OrderDirectionEnum where
  | ASC
  | DESC
deriving Repr, DecidableEq

/-- `IFindManyOptions` as consumed by `FindQueryBuilder.build` (the
`where` member is renamed `whereOpt`, `where` being a Lean keyword). -/
structure IFindManyOptions where
  take : Option Int := none
  skip : Option Int := none
  withDeleted : Bool := false
  onlyDeleted : Bool := false
  select : Option (List String) := none
  relations : Option RelationOptions := none
  whereOpt : Option JsVal := none
  order : Option (List (String × OrderDirectionEnum)) := none

/-- The composed query-builder state `FindQueryBuilder.build` produces:
find options, accumulated `andWhere` clauses, joins, `addOrderBy` calls,
the helper's `selectedFields` set and the final `select` list. -/
structure QueryState where
  findOptions : FindOptionsState := {}
  wheres : List (String × Params) := []
  joins : List Join := []
  orderBys : List (String × OrderDirectionEnum) := []
  selectedFields : List String := []
  select : List String := []

/-- `FindQueryBuilder.buildSelect`: registers the aliased base-entity
columns (all of them when no/empty select list is given). -/
def buildSelect (meta : EntityMeta) (select : Option (List String))
    (selectedFields : List String) : List String :=
  match select with
  | none => meta.entityColumns.foldl (fun acc col => setAdd acc (meta.getFieldWithAlias col)) selectedFields
  | some [] => meta.entityColumns.foldl (fun acc col => setAdd acc (meta.getFieldWithAlias col)) selectedFields
  | some sel => sel.foldl (fun acc f => setAdd acc (meta.getFieldWithAlias f)) selectedFields

/-- `FindQueryBuilder.buildOrder`: each order key is resolved, cleaned and
appended with `addOrderBy` (additive, never replacing). -/
def buildOrder (meta : EntityMeta) (order : List (String × OrderDirectionEnum))
    (acc : List (String × OrderDirectionEnum)) : List (String × OrderDirectionEnum) :=
  order.foldl
    (fun acc kv => acc ++ [(cleanFieldName meta.dbType (meta.getFieldWithAlias kv.1), kv.2)]) acc

/-- The `if (options)` block of `FindQueryBuilder.build`: pagination and
soft-delete flags, base select registration, joins, where compilation and
ordering. -/
def findBuildCore (meta : EntityMeta) (options : Option IFindManyOptions) :
    Except CrudError QueryState := do
  let st : QueryState := {}
  match options with
    | none => pure st
    | some opts => do
      let fo : FindOptionsState := {}
      let fo := match opts.take with
        | some t => { fo with take := some t }
        | none => fo
      let fo := match opts.skip with
        | some s => { fo with skip := some s }
        | none => fo
      let fo := if opts.withDeleted then { fo with withDeleted := true } else fo
      let (fo, whereList) :=
        if opts.onlyDeleted ∧ meta.deleteDateColumn.isSome then
          ({ fo with withDeleted := true },
            [(meta.targetName ++ "." ++ meta.deleteDateColumn.getD "" ++ " IS NOT NULL",
              ([] : Params))])
        else (fo, [])
      let st := { st with findOptions := fo, wheres := whereList }
      let st := { st with selectedFields := buildSelect meta opts.select st.selectedFields }
      let st ← match opts.relations with
        | some rels => do
          let js ← joinBuild meta.resolver rels
            { joins := st.joins, selectedFields := st.selectedFields }
          pure { st with joins := js.joins, selectedFields := js.selectedFields }
        | none => pure st
      let st ← do
        let wctx : WhereCtx := { dbType := meta.dbType, getFieldWithAlias := meta.getFieldWithAlias }
        let (wheres', _) ← whereBuild wctx opts.whereOpt st.wheres 0
        pure { st with wheres := wheres' }
      let st := match opts.order with
        | some ord => { st with orderBys := buildOrder meta ord st.orderBys }
        | none => st
      pure st

/-- `FindQueryBuilder.build`: the options block above followed by the final
cleaned, deduplicated select-list materialization. -/
def findBuild (meta : EntityMeta) (options : Option IFindManyOptions) :
    Except CrudError QueryState := do
  let st ← findBuildCore meta options
  .ok { st with select := st.selectedFields.map (cleanFieldName meta.dbType) }

/-! ## Basic lemmas about the emitted fragments -/

theorem decDigits_ne_nil (n : Nat) : decDigits n ≠ [] := by
  rw [decDigits]
  by_cases h : n < 10 <;> simp [h]

theorem str_append_ne_empty (a b : String) (hb : b.data ≠ []) : a ++ b ≠ "" := by
  intro h
  have hd := congrArg String.data h
  rw [string_data_append] at hd
  have : b.data = [] := (List.append_eq_nil.mp hd).2
  exact hb this

theorem paramName_ne_empty (pfx : String) (idx : Nat) : pfx ++ decRepr idx ≠ "" :=
  str_append_ne_empty _ _ (by simpa [decRepr] using decDigits_ne_nil idx)

/-- Number of parameter-map keys one leaf comparison emits: two for the
BETWEEN bounds, zero for the parameterless null/boolean operators and the
guarded empty-`IN` contradictions, one otherwise. -/
def leafParamCount (value : JsVal) (op : WhereOperatorEnum) : Nat :=
  match op with
  | .IS_NULL => 0
  | .IS_NOT_NULL => 0
  | .IS_TRUE => 0
  | .IS_FALSE => 0
  | .BETWEEN => 2
  | .NOT_BETWEEN => 2
  | .IN =>
    match value with
    | .arr [] => 0
    | _ => 1
  | .IN_L =>
    match value with
    | .arr [] => 0
    | _ => 1
  | .CONT_ARR =>
    match value with
    | .arr [] => 0
    | _ => 1
  | .INTERSECTS_ARR =>
    match value with
    | .arr [] => 0
    | _ => 1
  | _ => 1

/-- Every successful leaf compilation emits a non-empty fragment, exactly
`leafParamCount` parameters, and keys drawn from slot `idx` in one of the
three key shapes. -/
theorem parse_ok_spec (ctx : WhereCtx) (idx : Nat) (col : String) (v : JsVal)
    (op : WhereOperatorEnum) (q : String) (ps : Params)
    (h : parseWhereObjectToQueryAndParams ctx idx col v op = .ok (q, ps)) :
    q ≠ "" ∧ ps.length = leafParamCount v op ∧
      (ps.map Prod.fst = [] ∨ ps.map Prod.fst = [keyOf ctx.pfx idx .plain] ∨
        ps.map Prod.fst = [keyOf ctx.pfx idx .lo, keyOf ctx.pfx idx .hi]) := by
  have hpn : ctx.pfx ++ decRepr idx ≠ "" := paramName_ne_empty ctx.pfx idx
  have hpnd : (ctx.pfx ++ decRepr idx).data ≠ [] := by
    rw [string_data_append]
    intro hcon
    exact decDigits_ne_nil idx (by simpa [decRepr] using (List.append_eq_nil.mp hcon).2)
  simp only [parseWhereObjectToQueryAndParams, destructurePair] at h
  cases op <;> (repeat' split at h) <;>
    simp_all only [Except.ok.injEq, Prod.mk.injEq, Except.bind, Except.error.injEq,
      reduceCtorEq] <;>
    (try obtain ⟨hq, hps⟩ := h) <;>
    (try subst hq) <;>
    (try subst hps)
  all_goals
    refine ⟨?_, ?_, ?_⟩
  all_goals try simp [leafParamCount]
  all_goals try exact str_append_ne_empty _ _ (by decide)
  all_goals try exact str_append_ne_empty _ _ hpnd
  all_goals try simp [keyOf_plain, keyOf_lo, keyOf_hi]
  all_goals try (rename_i xs hxs; cases xs with
    | nil => exact absurd rfl hxs
    | cons a as => rfl)
  all_goals try (rename_i xs hxs hpg; cases xs with
    | nil => exact absurd rfl hxs
    | cons a as => rfl)

/-! ## Claim theorems: predicate compiler -/

/-- C2: for every field, compiling `{field: {$in: []}}` yields exactly the
fragment `1 = 0` with an empty parameter map, while `{field: {$notIn: []}}`
has no such guard and emits the `<col> NOT IN (:...p)` fragment with the
empty array bound as its parameter. -/
theorem empty_in_guard_and_notIn_asymmetry (ctx : WhereCtx) (field : String) (idx : Nat)
    (hf : ¬(field = "$and" ∨ field = "$or")) :
    buildWhereQueryAndParams ctx (.obj [(field, .obj [("$in", .arr [])])]) idx
        = .ok ("1 = 0", [], idx + 1)
    ∧ parseWhereObjectToQueryAndParams ctx idx (ctx.getFieldWithAlias field) (.arr []) .IN
        = .ok ("1 = 0", [])
    ∧ parseWhereObjectToQueryAndParams ctx idx (ctx.getFieldWithAlias field) (.arr []) .NOT_IN
        = .ok (ctx.getFieldWithAlias field ++ " NOT IN (:..." ++ (ctx.pfx ++ decRepr idx) ++ ")",
            [(ctx.pfx ++ decRepr idx, .arr [])])
    ∧ buildWhereQueryAndParams ctx (.obj [(field, .obj [("$notIn", .arr [])])]) idx
        = .ok (ctx.getFieldWithAlias field ++ " NOT IN (:..." ++ (ctx.pfx ++ decRepr idx) ++ ")",
            [(ctx.pfx ++ decRepr idx, .arr [])], idx + 1) := by
  have hq : ctx.getFieldWithAlias field ++ " NOT IN (:..." ++ (ctx.pfx ++ decRepr idx) ++ ")"
      ≠ "" := str_append_ne_empty _ _ (by decide)
  refine ⟨?_, rfl, rfl, ?_⟩ <;>
  simp [buildWhereQueryAndParams, buildWhereEntries, buildWhereEntry, buildWhereOperators,
    opOfString, parseWhereObjectToQueryAndParams, joinParts, hq, hf, bind, Except.bind]

/-- C4: compiling an absent filter, `{}` or `[]` yields the empty fragment
and empty parameter map, and leaves the builder's WHERE state unchanged. -/
theorem empty_filter_is_identity (ctx : WhereCtx) (wheres : List (String × Params)) (idx : Nat) :
    whereBuild ctx none wheres idx = .ok (wheres, idx)
    ∧ whereBuild ctx (some (.obj [])) wheres idx = .ok (wheres, idx)
    ∧ whereBuild ctx (some (.arr [])) wheres idx = .ok (wheres, idx)
    ∧ buildWhereQueryAndParams ctx (.obj []) idx = .ok ("", [], idx)
    ∧ buildWhereQueryAndParams ctx (.arr []) idx = .ok ("", [], idx) :=
  ⟨rfl, rfl, rfl, rfl, rfl⟩

/-- C7: non-PostgreSQL dialects reject the array-containment operators on
non-empty arrays; `$in`-case-insensitive and the array-containment
operators reject non-array values; empty arrays compile to `1 = 0`. -/
theorem array_operator_validation (ctx : WhereCtx) (col : String) (idx : Nat)
    (v : JsVal) (xs : List JsVal)
    (hxs : xs ≠ []) (hdb : nonPostgres ctx.dbType = true) (hv : ∀ ys, v ≠ JsVal.arr ys) :
    (∃ m, parseWhereObjectToQueryAndParams ctx idx col (.arr xs) .CONT_ARR
        = .error (.badRequest m))
    ∧ (∃ m, parseWhereObjectToQueryAndParams ctx idx col (.arr xs) .INTERSECTS_ARR
        = .error (.badRequest m))
    ∧ (∃ m, parseWhereObjectToQueryAndParams ctx idx col v .IN_L = .error (.badRequest m))
    ∧ (∃ m, parseWhereObjectToQueryAndParams ctx idx col v .CONT_ARR = .error (.badRequest m))
    ∧ (∃ m, parseWhereObjectToQueryAndParams ctx idx col v .INTERSECTS_ARR
        = .error (.badRequest m))
    ∧ parseWhereObjectToQueryAndParams ctx idx col (.arr []) .CONT_ARR = .ok ("1 = 0", [])
    ∧ parseWhereObjectToQueryAndParams ctx idx col (.arr []) .INTERSECTS_ARR
        = .ok ("1 = 0", []) := by
  refine ⟨?_, ?_, ?_, ?_, ?_, rfl, rfl⟩
  · cases xs with
    | nil => exact absurd rfl hxs
    | cons a as =>
      exact ⟨"Operator " ++ opName WhereOperatorEnum.CONT_ARR ++ " is only supported for PostgreSQL",
        by simp [parseWhereObjectToQueryAndParams, hdb]⟩
  · cases xs with
    | nil => exact absurd rfl hxs
    | cons a as =>
      exact ⟨"Operator " ++ opName WhereOperatorEnum.INTERSECTS_ARR ++ " is only supported for PostgreSQL",
        by simp [parseWhereObjectToQueryAndParams, hdb]⟩
  · cases v <;> first
    | exact absurd rfl (hv _)
    | exact ⟨_, rfl⟩
  · cases v <;> first
    | exact absurd rfl (hv _)
    | exact ⟨_, rfl⟩
  · cases v <;> first
    | exact absurd rfl (hv _)
    | exact ⟨_, rfl⟩

/-- A cleaned field never contains the identifier quote character. -/
theorem quote_not_mem_cleanFieldName (dbType s : String) :
    getIdentifierQuote dbType ∉ (cleanFieldName dbType s).data := by
  simp [cleanFieldName]

/-- Inversion principle for `Except` bind. -/
theorem except_bind_ok {α β ε : Type} {E : Except ε α} {k : α → Except ε β} {b : β}
    (h : (E >>= k) = .ok b) : ∃ a, E = .ok a ∧ k a = .ok b := by
  cases E with
  | error e => simp [bind, Except.bind] at h
  | ok a => exact ⟨a, rfl, by simpa [bind, Except.bind] using h⟩

/-- C10: every entry of the final SELECT list applied to the builder is free
of the dialect's identifier-quote character, the orchestrator stripping all
quote characters from each selected field. -/
theorem final_select_has_no_quote (meta : EntityMeta) (options : Option IFindManyOptions)
    (st : QueryState) (f : String)
    (hok : findBuild meta options = .ok st) (hf : f ∈ st.select) :
    getIdentifierQuote meta.dbType ∉ f.data := by
  unfold findBuild at hok
  obtain ⟨st1, hE, hk⟩ := except_bind_ok hok
  have hst : st = { st1 with select := st1.selectedFields.map (cleanFieldName meta.dbType) } := by
    cases hk
    rfl
  subst hst
  simp only [List.mem_map] at hf
  obtain ⟨g, _, hg⟩ := hf
  subst hg
  exact quote_not_mem_cleanFieldName meta.dbType g

/-- The options block ignores `onlyDeleted` when the entity has no
delete-date column. -/
theorem findBuildCore_onlyDeleted_inert (meta : EntityMeta) (opts : IFindManyOptions)
    (hdel : meta.deleteDateColumn = none) :
    findBuildCore meta (some { opts with onlyDeleted := true })
      = findBuildCore meta (some { opts with onlyDeleted := false }) := by
  simp [findBuildCore, hdel]

/-- C9: with no delete-date column on the entity, `onlyDeleted` is inert —
the built query is identical to one built without it. -/
theorem onlyDeleted_noop_without_delete_column (meta : EntityMeta) (opts : IFindManyOptions)
    (hdel : meta.deleteDateColumn = none) (_hwd : opts.withDeleted = false) :
    findBuild meta (some { opts with onlyDeleted := true })
      = findBuild meta (some { opts with onlyDeleted := false }) := by
  unfold findBuild
  rw [findBuildCore_onlyDeleted_inert meta opts hdel]

/-! ## Concrete instances used by the witnesses -/

def ctxEx : WhereCtx := { dbType := "sqlite", getFieldWithAlias := fun f => "User." ++ f }

def metaEx : EntityMeta :=
  { targetName := "User", dbType := "mysql", entityColumns := ["id", "name"],
    deleteDateColumn := none, resolver := fun _ => none,
    getFieldWithAlias := fun f => "`User`.`" ++ f ++ "`" }

def selectStateEx : QueryState :=
  { findOptions := {}, wheres := [], joins := [], orderBys := [],
    selectedFields := ["`User`.`id`", "`User`.`name`"],
    select := ["User.id", "User.name"] }

theorem empty_in_guard_and_notIn_asymmetry_witness :
    (¬(("status" : String) = "$and" ∨ ("status" : String) = "$or"))
    ∧ (buildWhereQueryAndParams ctxEx (.obj [("status", .obj [("$in", .arr [])])]) 0
          = .ok ("1 = 0", [], 0 + 1)
      ∧ parseWhereObjectToQueryAndParams ctxEx 0 (ctxEx.getFieldWithAlias "status") (.arr []) .IN
          = .ok ("1 = 0", [])
      ∧ parseWhereObjectToQueryAndParams ctxEx 0 (ctxEx.getFieldWithAlias "status") (.arr []) .NOT_IN
          = .ok (ctxEx.getFieldWithAlias "status" ++ " NOT IN (:..." ++ (ctxEx.pfx ++ decRepr 0) ++ ")",
              [(ctxEx.pfx ++ decRepr 0, .arr [])])
      ∧ buildWhereQueryAndParams ctxEx (.obj [("status", .obj [("$notIn", .arr [])])]) 0
          = .ok (ctxEx.getFieldWithAlias "status" ++ " NOT IN (:..." ++ (ctxEx.pfx ++ decRepr 0) ++ ")",
              [(ctxEx.pfx ++ decRepr 0, .arr [])], 0 + 1)) :=
  ⟨by decide, empty_in_guard_and_notIn_asymmetry ctxEx "status" 0 (by decide)⟩

theorem array_operator_validation_witness :
    (([JsVal.num 1] : List JsVal) ≠ [])
    ∧ nonPostgres ctxEx.dbType = true
    ∧ (∀ ys, JsVal.str "x" ≠ JsVal.arr ys)
    ∧ ((∃ m, parseWhereObjectToQueryAndParams ctxEx 0 "User.tags" (.arr [JsVal.num 1]) .CONT_ARR
          = .error (.badRequest m))
      ∧ (∃ m, parseWhereObjectToQueryAndParams ctxEx 0 "User.tags" (.arr [JsVal.num 1]) .INTERSECTS_ARR
          = .error (.badRequest m))
      ∧ (∃ m, parseWhereObjectToQueryAndParams ctxEx 0 "User.tags" (.str "x") .IN_L
          = .error (.badRequest m))
      ∧ (∃ m, parseWhereObjectToQueryAndParams ctxEx 0 "User.tags" (.str "x") .CONT_ARR
          = .error (.badRequest m))
      ∧ (∃ m, parseWhereObjectToQueryAndParams ctxEx 0 "User.tags" (.str "x") .INTERSECTS_ARR
          = .error (.badRequest m))
      ∧ parseWhereObjectToQueryAndParams ctxEx 0 "User.tags" (.arr []) .CONT_ARR = .ok ("1 = 0", [])
      ∧ parseWhereObjectToQueryAndParams ctxEx 0 "User.tags" (.arr []) .INTERSECTS_ARR
          = .ok ("1 = 0", [])) :=
  ⟨List.cons_ne_nil _ _, by decide, fun _ h => JsVal.noConfusion h,
    array_operator_validation ctxEx "User.tags" 0 (.str "x") [JsVal.num 1]
      (List.cons_ne_nil _ _) (by decide) (fun _ h => JsVal.noConfusion h)⟩

theorem onlyDeleted_noop_witness :
    findBuild metaEx (some { ({} : IFindManyOptions) with onlyDeleted := true })
      = findBuild metaEx (some { ({} : IFindManyOptions) with onlyDeleted := false }) :=
  onlyDeleted_noop_without_delete_column metaEx {} rfl rfl

theorem final_select_has_no_quote_witness :
    findBuild metaEx (some {}) = .ok selectStateEx
    ∧ "User.id" ∈ selectStateEx.select
    ∧ getIdentifierQuote metaEx.dbType ∉ "User.id".data :=
  ⟨rfl, by decide,
    final_select_has_no_quote metaEx (some {}) selectStateEx "User.id" rfl (by decide)⟩

/-! ## Set and path lemmas for the join planner -/

theorem mem_setAdd {l : List String} {x f : String} : f ∈ setAdd l x ↔ f ∈ l ∨ f = x := by
  by_cases h : x ∈ l
  · simp only [setAdd, if_pos h]
    constructor
    · exact Or.inl
    · rintro (hf | rfl)
      · exact hf
      · exact h
  · simp [setAdd, if_neg h]

theorem mem_foldl_setAdd (l : List String) (init : List String) (f : String) :
    f ∈ l.foldl setAdd init ↔ f ∈ init ∨ f ∈ l := by
  induction l generalizing init with
  | nil => simp
  | cons a as ih =>
    simp only [List.foldl_cons, ih, mem_setAdd, List.mem_cons]
    tauto

theorem mem_jsSetOf (l : List String) (f : String) : f ∈ jsSetOf l ↔ f ∈ l := by
  simp [jsSetOf, mem_foldl_setAdd]

theorem nodup_setAdd {l : List String} (h : l.Nodup) (x : String) : (setAdd l x).Nodup := by
  by_cases hx : x ∈ l
  · simpa [setAdd, if_pos hx] using h
  · simp [setAdd, if_neg hx, List.nodup_append, h, hx]

theorem nodup_foldl_setAdd (l : List String) (init : List String) (h : init.Nodup) :
    (l.foldl setAdd init).Nodup := by
  induction l generalizing init with
  | nil => exact h
  | cons a as ih => exact ih _ (nodup_setAdd h a)

theorem dotJoin_single (s : String) : dotJoin [s] = s := by
  simp [dotJoin, List.intercalate]

theorem prefixPaths_single (name : String) (h : segsOf name = [name]) :
    prefixPaths name = [name] := by
  simp [prefixPaths, h, dotJoin_single]

/-! ## Claim theorems: join planner error handling (C6) -/

/-- C6 amended: a single-segment relation path that does not resolve raises
the hard error "Relation 'x' not found" (also through `build`), but a
multi-segment path that does not resolve is still joined and silently
skipped for column registration, with no error raised. -/
theorem relation_not_found_single_segment_only (resolver : Resolver) (name : String)
    (opts : RelationObjectValue) (st : JoinState) (c : RelConfig)
    (hres : resolver name = none) :
    (segsOf name = [name] →
      setJoin resolver name opts st
          = .error (.internal ("Relation '" ++ name ++ "' not found"))
      ∧ joinBuild resolver (.obj [(name, c)]) st
          = .error (.internal ("Relation '" ++ name ++ "' not found")))
    ∧ (∀ s1 s2 rest, segsOf name = s1 :: s2 :: rest →
      setJoin resolver name opts st = .ok { st with joins := st.joins ++
        [({ joinType := if opts.joinType = some JoinType.inner then JoinType.inner else .left,
            path := joinParts "_" (s1 :: s2 :: rest).dropLast ++ "." ++ (s1 :: s2 :: rest).getLastD "",
            joinAlias := String.mk (name.data.map (fun ch => if ch = '.' then '_' else ch)) } : Join)] }) := by
  constructor
  · intro hseg
    have hsj : setJoin resolver name opts st
        = .error (.internal ("Relation '" ++ name ++ "' not found")) := by
      simp [setJoin, hseg, hres]
    refine ⟨hsj, ?_⟩
    have hcollect : collectAllNeededRelations [name] = [name] := by
      simp [collectAllNeededRelations, prefixPaths_single name hseg, setAdd]
    have hsort : sortByDepth [name] = [name] := by
      simp [sortByDepth, insertByDepth]
    have hsj2 : setJoin resolver name (effectiveOptions [(name, c)] name) st
        = .error (.internal ("Relation '" ++ name ++ "' not found")) := by
      simp [setJoin, hseg, hres]
    simp [joinBuild, parseJoinConfig, hcollect, hsort, processRelations, hsj2, bind, Except.bind]
  · intro s1 s2 rest hseg
    simp [setJoin, hseg, hres]

def resolverEx : Resolver := fun p =>
  if p = "profile" then
    some (RelationMeta.mk "User.profile" ["id", "age", "bio"] ["id"])
  else if p = "profile.addresses" then
    some (RelationMeta.mk "profile.addresses" ["id", "city", "state"] ["id"])
  else none

def joinStateEx6 : JoinState :=
  { joins := [Join.mk .left "User.profile" "profile",
      Join.mk .left "profile.missing" "profile_missing"],
    selectedFields := ["profile.id", "profile.age", "profile.bio"] }

/-- C6 counterexample: the relation path `profile.missing` does not exist
(the resolver returns `null` for it), yet `build` succeeds without raising,
so the hard error does not hold for every nonexistent relation path. -/
theorem relation_not_found_counterexample :
    resolverEx "profile.missing" = none
    ∧ joinBuild resolverEx (.obj [("profile.missing", .bool true)]) {} = .ok joinStateEx6 := by
  constructor
  · decide
  · simp only [joinBuild, parseJoinConfig]
    rfl

theorem relation_not_found_single_segment_only_witness :
    (segsOf "profile.missing" = ["profile.missing"] →
      setJoin resolverEx "profile.missing" {} {}
          = .error (.internal ("Relation '" ++ "profile.missing" ++ "' not found"))
      ∧ joinBuild resolverEx (.obj [("profile.missing", .bool true)]) {}
          = .error (.internal ("Relation '" ++ "profile.missing" ++ "' not found")))
    ∧ (∀ s1 s2 rest, segsOf "profile.missing" = s1 :: s2 :: rest →
      setJoin resolverEx "profile.missing" {} {} = .ok { ({} : JoinState) with joins := ({} : JoinState).joins ++
        [({ joinType := if ({} : RelationObjectValue).joinType = some JoinType.inner then JoinType.inner else .left,
            path := joinParts "_" (s1 :: s2 :: rest).dropLast ++ "." ++ (s1 :: s2 :: rest).getLastD "",
            joinAlias := String.mk ("profile.missing".data.map (fun ch => if ch = '.' then '_' else ch)) } : Join)] }) :=
  relation_not_found_single_segment_only resolverEx "profile.missing" {} {} (.bool true) (by decide)

/-! ## Claim theorems: join column registration (C3) -/

theorem mem_alias_map {al f : String} {cols : List String} :
    f ∈ cols.map (fun col => al ++ "." ++ col) ↔ ∃ c ∈ cols, f = al ++ "." ++ c := by
  simp only [List.mem_map]
  constructor
  · rintro ⟨c, hc, rfl⟩
    exact ⟨c, hc, rfl⟩
  · rintro ⟨c, hc, rfl⟩
    exact ⟨c, hc, rfl⟩

theorem mem_filter_allowed {sel allowed : List String} {c : String} :
    c ∈ sel.filter (fun column => allowed.any (fun a => a == column)) ↔ c ∈ sel ∧ c ∈ allowed := by
  simp [List.mem_filter, List.any_eq_true]

/-- C3 amended: for a single-segment relation path with an explicit
non-empty select list, the planner registers the intersection of the list
with the allowed columns plus, always, the primary-key columns; for a
multi-segment path with an explicit non-empty select list it registers only
the intersection — the primary keys are not added.  Requested columns
absent from the target entity are silently dropped in both cases. -/
theorem join_select_registration (resolver : Resolver) (name : String) (m : RelationMeta)
    (sel : List String) (jt : Option JoinType) (st : JoinState)
    (hres : resolver name = some m) (hsel : sel ≠ []) :
    (segsOf name = [name] →
      ∃ st', setJoin resolver name { select := some sel, joinType := jt } st = .ok st'
        ∧ st'.joins = st.joins ++
            [({ joinType := if jt = some JoinType.inner then JoinType.inner else .left,
                path := m.path, joinAlias := name } : Join)]
        ∧ ∀ f, f ∈ st'.selectedFields ↔ f ∈ st.selectedFields
            ∨ ∃ c, (c ∈ m.primaryColumns ∨ (c ∈ sel ∧ c ∈ m.allowedColumns))
                ∧ f = name ++ "." ++ c)
    ∧ (∀ s1 s2 rest, segsOf name = s1 :: s2 :: rest →
      ∃ st', setJoin resolver name { select := some sel, joinType := jt } st = .ok st'
        ∧ ∀ f, f ∈ st'.selectedFields ↔ f ∈ st.selectedFields
            ∨ ∃ c, (c ∈ sel ∧ c ∈ m.allowedColumns)
                ∧ f = String.mk (name.data.map (fun ch => if ch = '.' then '_' else ch))
                    ++ "." ++ c) := by
  obtain ⟨s0, sel', hsel'⟩ : ∃ s0 sel', sel = s0 :: sel' := by
    cases sel with
    | nil => exact absurd rfl hsel
    | cons a t => exact ⟨a, t, rfl⟩
  constructor
  · intro hseg
    rcases hok : setJoin resolver name { select := some sel, joinType := jt } st with e | st'
    · exfalso
      simp [setJoin, hseg, hres, hsel', isArrayFull] at hok
    · refine ⟨st', rfl, ?_, ?_⟩ <;>
        simp [setJoin, hseg, hres, hsel', isArrayFull] at hok <;>
        subst hok
      · rfl
      · intro f
        subst hsel'
        show f ∈ List.foldl setAdd st.selectedFields _ ↔ _
        rw [mem_foldl_setAdd, mem_jsSetOf]
        simp only [List.mem_append, mem_alias_map, mem_filter_allowed]
        aesop
  · intro s1 s2 rest hseg
    rcases hok : setJoin resolver name { select := some sel, joinType := jt } st with e | st'
    · exfalso
      simp [setJoin, hseg, hres, hsel', isArrayFull] at hok
    · refine ⟨st', rfl, ?_⟩
      simp [setJoin, hseg, hres, hsel', isArrayFull] at hok
      subst hok
      intro f
      subst hsel'
      show f ∈ List.foldl setAdd st.selectedFields _ ↔ _
      rw [mem_foldl_setAdd]
      simp only [mem_alias_map, mem_filter_allowed]

def joinStateEx3 : JoinState :=
  { joins := [Join.mk .left "User.profile" "profile",
      Join.mk .left "profile.addresses" "profile_addresses"],
    selectedFields := ["profile.id", "profile.age", "profile.bio", "profile_addresses.city"] }

/-- C3 counterexample: the nested relation `profile.addresses` has primary
key `id` and an explicit select `["city"]`; the planner registers only
`profile_addresses.city` and does not add the primary key, contradicting
the claim that primary keys are always additionally included. -/
theorem join_select_registration_counterexample :
    resolverEx "profile.addresses"
        = some (RelationMeta.mk "profile.addresses" ["id", "city", "state"] ["id"])
    ∧ joinBuild resolverEx (.obj [("profile.addresses", .cfg { select := some ["city"] })]) {}
        = .ok joinStateEx3
    ∧ "profile_addresses.city" ∈ joinStateEx3.selectedFields
    ∧ "profile_addresses.id" ∉ joinStateEx3.selectedFields := by
  refine ⟨by decide, ?_, by decide, by decide⟩
  simp only [joinBuild, parseJoinConfig]
  rfl

theorem join_select_registration_witness :
    ((segsOf "profile" = ["profile"] →
      ∃ st', setJoin resolverEx "profile" { select := some ["age", "ghost"], joinType := none } {} = .ok st'
        ∧ st'.joins = ({} : JoinState).joins ++
            [({ joinType := if (none : Option JoinType) = some JoinType.inner then JoinType.inner else .left,
                path := (RelationMeta.mk "User.profile" ["id", "age", "bio"] ["id"]).path,
                joinAlias := "profile" } : Join)]
        ∧ ∀ f, f ∈ st'.selectedFields ↔ f ∈ ({} : JoinState).selectedFields
            ∨ ∃ c, (c ∈ (RelationMeta.mk "User.profile" ["id", "age", "bio"] ["id"]).primaryColumns
                ∨ (c ∈ ["age", "ghost"] ∧ c ∈ (RelationMeta.mk "User.profile" ["id", "age", "bio"] ["id"]).allowedColumns))
                ∧ f = "profile" ++ "." ++ c)
    ∧ (∀ s1 s2 rest, segsOf "profile" = s1 :: s2 :: rest →
      ∃ st', setJoin resolverEx "profile" { select := some ["age", "ghost"], joinType := none } {} = .ok st'
        ∧ ∀ f, f ∈ st'.selectedFields ↔ f ∈ ({} : JoinState).selectedFields
            ∨ ∃ c, (c ∈ ["age", "ghost"] ∧ c ∈ (RelationMeta.mk "User.profile" ["id", "age", "bio"] ["id"]).allowedColumns)
                ∧ f = String.mk ("profile".data.map (fun ch => if ch = '.' then '_' else ch))
                    ++ "." ++ c)) :=
  join_select_registration resolverEx "profile" (RelationMeta.mk "User.profile" ["id", "age", "bio"] ["id"])
    ["age", "ghost"] none {} (by decide) (by decide)

/-! ## Claim theorems: logical group compilation (C8) -/

/-- The list of `(query, params)` results of compiling each element of a
group array in sequence, before any filtering — the semantic reference the
group loop is compared against. -/
def compileList (ctx : WhereCtx) : List JsVal → Nat → Except CrudError (List (String × Params) × Nat)
  | [], idx => .ok ([], idx)
  | sub :: rest, idx => do
    let (q, prms, idx1) ← buildWhereQueryAndParams ctx sub idx
    let (rs, idx2) ← compileList ctx rest idx1
    .ok ((q, prms) :: rs, idx2)

/-- The parenthesised fragments of the non-empty results. -/
def survivorParts : List (String × Params) → List String
  | [] => []
  | (q, _) :: rest => (if q = "" then [] else ["(" ++ q ++ ")"]) ++ survivorParts rest

/-- The parameters of the non-empty results, in order. -/
def survivorParams : List (String × Params) → Params
  | [] => []
  | (q, prms) :: rest => (if q = "" then [] else prms) ++ survivorParams rest

/-- The query part a group contributes: nothing when no fragment survives,
the joined survivors wrapped in parentheses when more than one survives,
and the lone survivor unwrapped otherwise. -/
def groupParts (key : String) (rs : List (String × Params)) : List String :=
  let survivors := survivorParts rs
  if survivors.isEmpty then []
  else [if survivors.length > 1 then
      "(" ++ joinParts (if key = "$and" then " AND " else " OR ") survivors ++ ")"
    else joinParts (if key = "$and" then " AND " else " OR ") survivors]

/-- The group loop is the filtered form of `compileList`. -/
theorem buildWhereGroup_eq_compileList (ctx : WhereCtx) (subs : List JsVal) (idx : Nat) :
    buildWhereGroup ctx subs idx
      = (compileList ctx subs idx).map (fun ri => (survivorParts ri.1, survivorParams ri.1, ri.2)) := by
  induction subs generalizing idx with
  | nil => rfl
  | cons sub rest ih =>
    rw [buildWhereGroup, compileList]
    cases hq : buildWhereQueryAndParams ctx sub idx with
    | error e => rfl
    | ok r =>
      obtain ⟨q, prms, idx1⟩ := r
      simp only [bind, Except.bind, ih idx1]
      cases hr : compileList ctx rest idx1 with
      | error e => rfl
      | ok ri => rfl

/-- C8: compiling an AND/OR group discards elements that compile to empty
(both their fragment and their parameters), joins the surviving
parenthesised fragments with the group's connective, and wraps the result
in parentheses exactly when more than one fragment survives. -/
theorem group_discards_empties_and_wraps (ctx : WhereCtx) (key : String) (subs : List JsVal)
    (idx : Nat) (rs : List (String × Params)) (idx2 : Nat)
    (hkey : key = "$and" ∨ key = "$or")
    (hcl : compileList ctx subs idx = .ok (rs, idx2)) :
    buildWhereEntry ctx key (.arr subs) idx = .ok (groupParts key rs, survivorParams rs, idx2)
    ∧ (survivorParts rs = [] → groupParts key rs = [])
    ∧ (∀ s, survivorParts rs = [s] → groupParts key rs = [s])
    ∧ (1 < (survivorParts rs).length → groupParts key rs
        = ["(" ++ joinParts (if key = "$and" then " AND " else " OR ") (survivorParts rs) ++ ")"]) := by
  refine ⟨?_, ?_, ?_, ?_⟩
  · cases subs with
    | nil =>
      cases hcl
      simp [buildWhereEntry, hkey, groupParts, survivorParts, survivorParams]
    | cons sub rest =>
      rw [buildWhereEntry.eq_def]
      rw [if_pos hkey]
      simp only [buildWhereGroup_eq_compileList, hcl, Except.map, bind, Except.bind]
      by_cases hs : survivorParts rs = []
      · simp [hs, groupParts, List.isEmpty_iff]
      · rw [groupParts]
        simp [List.isEmpty_iff, hs]
  · intro hs
    simp [groupParts, hs]
  · intro s hs
    simp [groupParts, hs, joinParts]
  · intro hlen
    rw [groupParts]
    have : ¬(survivorParts rs).isEmpty = true := by
      cases h : survivorParts rs with
      | nil => rw [h] at hlen; simp at hlen
      | cons a t => simp [h]
    simp only [this, if_neg, Bool.false_eq_true, if_false]
    rw [if_pos hlen]

theorem group_discards_empties_and_wraps_witness :
    (("$or" : String) = "$and" ∨ ("$or" : String) = "$or")
    ∧ compileList ctxEx [.obj [], .obj [("a", .obj [("$isNull", .null)])]] 0
        = .ok ([("", []), ("User.a IS NULL", [])], 1)
    ∧ (buildWhereEntry ctxEx "$or" (.arr [.obj [], .obj [("a", .obj [("$isNull", .null)])]]) 0
          = .ok (groupParts "$or" [("", []), ("User.a IS NULL", [])],
              survivorParams [("", []), ("User.a IS NULL", [])], 1)
      ∧ (survivorParts [("", []), ("User.a IS NULL", [])] = []
          → groupParts "$or" [("", []), ("User.a IS NULL", [])] = [])
      ∧ (∀ s, survivorParts [("", []), ("User.a IS NULL", [])] = [s]
          → groupParts "$or" [("", []), ("User.a IS NULL", [])] = [s])
      ∧ (1 < (survivorParts [("", []), ("User.a IS NULL", [])]).length
          → groupParts "$or" [("", []), ("User.a IS NULL", [])]
            = ["(" ++ joinParts (if ("$or" : String) = "$and" then " AND " else " OR ")
                (survivorParts [("", []), ("User.a IS NULL", [])]) ++ ")"])) := by
  have hcl : compileList ctxEx [.obj [], .obj [("a", .obj [("$isNull", .null)])]] 0
      = .ok ([("", []), ("User.a IS NULL", [])], 1) := by
    simp [compileList, buildWhereQueryAndParams, buildWhereEntries, buildWhereEntry,
      buildWhereOperators, parseWhereObjectToQueryAndParams, opOfString, joinParts,
      bind, Except.bind, ctxEx]
  exact ⟨Or.inr rfl, hcl,
    group_discards_empties_and_wraps ctxEx "$or" [.obj [], .obj [("a", .obj [("$isNull", .null)])]]
      0 [("", []), ("User.a IS NULL", [])] 1 (Or.inr rfl) hcl⟩

/-! ## Claim theorems: parameter uniqueness (C5) -/

/-- All keys come from compile slots in `[lo, hi)`. -/
def KeysFrom (pfx : String) (lo hi : Nat) (keys : List String) : Prop :=
  ∀ k ∈ keys, ∃ j t, lo ≤ j ∧ j < hi ∧ k = keyOf pfx j t

theorem keysFrom_mono {pfx : String} {lo lo' hi hi' : Nat} {keys : List String}
    (h : KeysFrom pfx lo hi keys) (hl : lo' ≤ lo) (hh : hi ≤ hi') :
    KeysFrom pfx lo' hi' keys := by
  intro k hk
  obtain ⟨j, t, h1, h2, h3⟩ := h k hk
  exact ⟨j, t, by omega, by omega, h3⟩

theorem keysFrom_append {pfx : String} {lo mid hi : Nat} {k1 k2 : List String}
    (h1 : KeysFrom pfx lo mid k1) (h2 : KeysFrom pfx mid hi k2)
    (hlm : lo ≤ mid) (hmh : mid ≤ hi) :
    KeysFrom pfx lo hi (k1 ++ k2) := by
  intro k hk
  rcases List.mem_append.mp hk with hk1 | hk2
  · obtain ⟨j, t, ha, hb, hc⟩ := h1 k hk1
    exact ⟨j, t, ha, by omega, hc⟩
  · obtain ⟨j, t, ha, hb, hc⟩ := h2 k hk2
    exact ⟨j, t, by omega, hb, hc⟩

theorem nodup_keys_append {pfx : String} {lo mid hi : Nat} {k1 k2 : List String}
    (h1 : KeysFrom pfx lo mid k1) (h2 : KeysFrom pfx mid hi k2)
    (n1 : k1.Nodup) (n2 : k2.Nodup) : (k1 ++ k2).Nodup := by
  rw [List.nodup_append]
  refine ⟨n1, n2, ?_⟩
  intro a ha1 ha2
  obtain ⟨j1, t1, hj1, hj1', rfl⟩ := h1 a ha1
  obtain ⟨j2, t2, hj2, hj2', heq⟩ := h2 _ ha2
  obtain ⟨hje, _⟩ := keyOf_inj heq
  omega

theorem leaf_keys_spec (pfx : String) (idx : Nat) {keys : List String}
    (hshape : keys = [] ∨ keys = [keyOf pfx idx .plain]
      ∨ keys = [keyOf pfx idx .lo, keyOf pfx idx .hi]) :
    keys.Nodup ∧ KeysFrom pfx idx (idx + 1) keys := by
  rcases hshape with rfl | rfl | rfl
  · exact ⟨List.nodup_nil, by intro k hk; simp at hk⟩
  · refine ⟨List.nodup_singleton _, ?_⟩
    intro k hk
    simp only [List.mem_singleton] at hk
    exact ⟨idx, .plain, le_refl idx, by omega, hk⟩
  · constructor
    · refine List.nodup_cons.mpr ⟨?_, List.nodup_singleton _⟩
      intro hmem
      simp only [List.mem_singleton] at hmem
      exact absurd (keyOf_inj hmem).2 (by simp)
    · intro k hk
      rcases List.mem_cons.mp hk with rfl | hk2
      · exact ⟨idx, .lo, le_refl idx, by omega, rfl⟩
      · simp only [List.mem_singleton] at hk2
        exact ⟨idx, .hi, le_refl idx, by omega, hk2⟩

mutual

/-- The number of parameter-map keys a condition value compiles to:
`leafParamCount` per leaf, summed over the tree. -/
def paramCountVal : JsVal → Nat
  | .obj fields => paramCountEntries fields
  | _ => 0

def paramCountEntries : List (String × JsVal) → Nat
  | [] => 0
  | (key, value) :: rest => paramCountEntry key value + paramCountEntries rest

def paramCountEntry (key : String) (value : JsVal) : Nat :=
  if key = "$and" ∨ key = "$or" then
    match value with
    | .arr subs => paramCountSubs subs
    | _ => 0
  else
    match value with
    | .obj ops => paramCountOps ops
    | _ => leafParamCount value .EQ

def paramCountSubs : List JsVal → Nat
  | [] => 0
  | sub :: rest => paramCountVal sub + paramCountSubs rest

def paramCountOps : List (String × JsVal) → Nat
  | [] => 0
  | (opKey, val) :: rest => leafParamCount val (opOfString opKey) + paramCountOps rest

end

theorem string_data_nil {s : String} : s.data = [] ↔ s = "" := by
  constructor
  · intro h
    cases s with
    | mk d => exact congrArg String.mk h
  · intro h
    simp [h]

theorem joinParts_data_le (sep : String) (t : List String) (acc : String) :
    acc.data.length ≤ (t.foldl (fun acc s => acc ++ sep ++ s) acc).data.length := by
  induction t generalizing acc with
  | nil => exact le_refl _
  | cons s rest ih =>
    refine le_trans ?_ (ih (acc ++ sep ++ s))
    simp [string_data_append]

theorem joinParts_ne_empty (sep p0 : String) (t : List String) (h : p0 ≠ "") :
    joinParts sep (p0 :: t) ≠ "" := by
  intro hc
  have hlen := joinParts_data_le sep t p0
  rw [joinParts] at hc
  rw [hc] at hlen
  simp only [List.length_nil] at hlen
  have : p0.data = [] := List.length_eq_zero.mp (by omega)
  exact h (string_data_nil.mp this)

/-- A simple-equality leaf entry (non-object value under a non-group key)
consumes one slot and emits `leafParamCount value EQ` parameters. -/
theorem leaf_entry_spec (ctx : WhereCtx) (key : String) (value : JsVal) (idx : Nat)
    (parts : List String) (ps : Params) (idx' : Nat)
    (hk : ¬(key = "$and" ∨ key = "$or"))
    (hno : ∀ ops, value ≠ JsVal.obj ops)
    (h : buildWhereEntry ctx key value idx = .ok (parts, ps, idx')) :
    idx ≤ idx' ∧ ps.length = leafParamCount value .EQ ∧ (ps.map Prod.fst).Nodup
      ∧ KeysFrom ctx.pfx idx idx' (ps.map Prod.fst)
      ∧ (∀ p ∈ parts, p ≠ "") ∧ (parts = [] → ps = []) := by
  rw [buildWhereEntry.eq_def, if_neg hk] at h
  cases value <;> first
  | exact absurd rfl (hno _)
  | (dsimp only at h
     obtain ⟨⟨q1, prms1⟩, hP, hk2⟩ := except_bind_ok h
     obtain ⟨pq, plen, pshape⟩ := parse_ok_spec ctx idx _ _ .EQ q1 prms1 hP
     obtain ⟨pn, pk⟩ := leaf_keys_spec ctx.pfx idx pshape
     dsimp only at hk2
     rw [if_neg pq, if_neg pq] at hk2
     simp only [Except.ok.injEq, Prod.mk.injEq] at hk2
     obtain ⟨rfl, rfl, rfl⟩ := hk2
     refine ⟨by omega, plen, pn, pk, ?_, by simp⟩
     intro p hp
     simp only [List.mem_singleton] at hp
     subst hp
     exact pq)

/-- Specification of `buildWhereQueryAndParams`: the counter only advances,
the parameter map has exactly `paramCountVal` entries with pairwise
distinct keys drawn from the consumed slot range, and an empty query
carries no parameters. -/
abbrev PvalSpec (ctx : WhereCtx) (v : JsVal) : Prop :=
  ∀ (idx : Nat) (q : String) (ps : Params) (idx' : Nat),
    buildWhereQueryAndParams ctx v idx = .ok (q, ps, idx') →
    idx ≤ idx' ∧ ps.length = paramCountVal v ∧ (ps.map Prod.fst).Nodup
      ∧ KeysFrom ctx.pfx idx idx' (ps.map Prod.fst) ∧ (q = "" → ps = [])

/-- Specification of the key-iteration loop. -/
abbrev PentriesSpec (ctx : WhereCtx) (l : List (String × JsVal)) : Prop :=
  ∀ (idx : Nat) (parts : List String) (ps : Params) (idx' : Nat),
    buildWhereEntries ctx l idx = .ok (parts, ps, idx') →
    idx ≤ idx' ∧ ps.length = paramCountEntries l ∧ (ps.map Prod.fst).Nodup
      ∧ KeysFrom ctx.pfx idx idx' (ps.map Prod.fst)
      ∧ (∀ p ∈ parts, p ≠ "") ∧ (parts = [] → ps = [])

/-- Specification of one key-loop iteration. -/
abbrev PentrySpec (ctx : WhereCtx) (key : String) (value : JsVal) : Prop :=
  ∀ (idx : Nat) (parts : List String) (ps : Params) (idx' : Nat),
    buildWhereEntry ctx key value idx = .ok (parts, ps, idx') →
    idx ≤ idx' ∧ ps.length = paramCountEntry key value ∧ (ps.map Prod.fst).Nodup
      ∧ KeysFrom ctx.pfx idx idx' (ps.map Prod.fst)
      ∧ (∀ p ∈ parts, p ≠ "") ∧ (parts = [] → ps = [])

/-- Specification of the `$and`/`$or` element loop. -/
abbrev PgroupSpec (ctx : WhereCtx) (subs : List JsVal) : Prop :=
  ∀ (idx : Nat) (parts : List String) (ps : Params) (idx' : Nat),
    buildWhereGroup ctx subs idx = .ok (parts, ps, idx') →
    idx ≤ idx' ∧ ps.length = paramCountSubs subs ∧ (ps.map Prod.fst).Nodup
      ∧ KeysFrom ctx.pfx idx idx' (ps.map Prod.fst)
      ∧ (∀ p ∈ parts, p ≠ "") ∧ (parts = [] → ps = [])

/-- Specification of the operator-object loop. -/
abbrev PopsSpec (ctx : WhereCtx) (key : String) (ops : List (String × JsVal)) : Prop :=
  ∀ (idx : Nat) (parts : List String) (ps : Params) (idx' : Nat),
    buildWhereOperators ctx key ops idx = .ok (parts, ps, idx') →
    idx ≤ idx' ∧ ps.length = paramCountOps ops ∧ (ps.map Prod.fst).Nodup
      ∧ KeysFrom ctx.pfx idx idx' (ps.map Prod.fst)
      ∧ (∀ p ∈ parts, p ≠ "") ∧ (parts = [] → ps = [])

/-- All five specifications, by strong induction on the size of the
traversed value. -/
theorem paramSpec_strong (ctx : WhereCtx) : ∀ n : Nat,
    (∀ v, sizeOf v < n → PvalSpec ctx v)
    ∧ (∀ l, sizeOf l < n → PentriesSpec ctx l)
    ∧ (∀ key value, sizeOf value < n → PentrySpec ctx key value)
    ∧ (∀ subs, sizeOf subs < n → PgroupSpec ctx subs)
    ∧ (∀ key ops, sizeOf ops < n → PopsSpec ctx key ops) := by
  intro n
  induction n using Nat.strong_induction_on with
  | _ n ih =>
    refine ⟨?_, ?_, ?_, ?_, ?_⟩
    · intro v hv idx q ps idx' h
      cases v with
      | obj fields =>
        cases fields with
        | nil =>
          simp only [buildWhereQueryAndParams, Except.ok.injEq, Prod.mk.injEq] at h
          obtain ⟨rfl, rfl, rfl⟩ := h
          simp [paramCountVal, paramCountEntries, KeysFrom]
        | cons f fs =>
          simp only [buildWhereQueryAndParams] at h
          obtain ⟨⟨parts, ps0, idx0⟩, hE, hk⟩ := except_bind_ok h
          simp only [Except.ok.injEq, Prod.mk.injEq] at hk
          obtain ⟨rfl, rfl, rfl⟩ := hk
          have hsz : sizeOf (f :: fs) < sizeOf (JsVal.obj (f :: fs)) := by
            simp only [JsVal.obj.sizeOf_spec]
            omega
          obtain ⟨h1, h2, h3, h4, h5, h6⟩ :=
            (ih _ hv).2.1 (f :: fs) hsz idx parts ps0 _ hE
          refine ⟨h1, by simpa [paramCountVal] using h2, h3, h4, ?_⟩
          intro hq0
          cases parts with
          | nil => exact h6 rfl
          | cons p t =>
            exact absurd hq0 (joinParts_ne_empty " AND " p t (h5 p (List.mem_cons_self p t)))
      | null =>
        simp only [buildWhereQueryAndParams, Except.ok.injEq, Prod.mk.injEq] at h
        obtain ⟨rfl, rfl, rfl⟩ := h
        simp [paramCountVal, KeysFrom]
      | undef =>
        simp only [buildWhereQueryAndParams, Except.ok.injEq, Prod.mk.injEq] at h
        obtain ⟨rfl, rfl, rfl⟩ := h
        simp [paramCountVal, KeysFrom]
      | bool b =>
        simp only [buildWhereQueryAndParams, Except.ok.injEq, Prod.mk.injEq] at h
        obtain ⟨rfl, rfl, rfl⟩ := h
        simp [paramCountVal, KeysFrom]
      | num n0 =>
        simp only [buildWhereQueryAndParams, Except.ok.injEq, Prod.mk.injEq] at h
        obtain ⟨rfl, rfl, rfl⟩ := h
        simp [paramCountVal, KeysFrom]
      | str s0 =>
        simp only [buildWhereQueryAndParams, Except.ok.injEq, Prod.mk.injEq] at h
        obtain ⟨rfl, rfl, rfl⟩ := h
        simp [paramCountVal, KeysFrom]
      | arr xs =>
        simp only [buildWhereQueryAndParams, Except.ok.injEq, Prod.mk.injEq] at h
        obtain ⟨rfl, rfl, rfl⟩ := h
        simp [paramCountVal, KeysFrom]
    · intro l hl idx parts ps idx' h
      cases l with
      | nil =>
        simp only [buildWhereEntries, Except.ok.injEq, Prod.mk.injEq] at h
        obtain ⟨rfl, rfl, rfl⟩ := h
        simp [paramCountEntries, KeysFrom]
      | cons kv rest =>
        obtain ⟨key, value⟩ := kv
        simp only [buildWhereEntries] at h
        obtain ⟨⟨parts1, ps1, idx1⟩, hE1, hk⟩ := except_bind_ok h
        obtain ⟨⟨parts2, ps2, idx2⟩, hE2, hk2⟩ := except_bind_ok hk
        simp only [Except.ok.injEq, Prod.mk.injEq] at hk2
        obtain ⟨rfl, rfl, rfl⟩ := hk2
        have hsz1 : sizeOf value < sizeOf ((key, value) :: rest) := by
          simp only [List.cons.sizeOf_spec, Prod.mk.sizeOf_spec]
          omega
        have hsz2 : sizeOf rest < sizeOf ((key, value) :: rest) := by
          simp only [List.cons.sizeOf_spec]
          omega
        obtain ⟨a1, a2, a3, a4, a5, a6⟩ :=
          (ih _ hl).2.2.1 key value hsz1 idx parts1 ps1 idx1 hE1
        obtain ⟨b1, b2, b3, b4, b5, b6⟩ :=
          (ih _ hl).2.1 rest hsz2 idx1 parts2 ps2 _ hE2
        refine ⟨le_trans a1 b1, ?_, ?_, ?_, ?_, ?_⟩
        · simp only [paramCountEntries, List.length_append, a2, b2]
        · rw [List.map_append]
          exact nodup_keys_append a4 b4 a3 b3
        · rw [List.map_append]
          exact keysFrom_append a4 b4 a1 b1
        · intro p hp
          rcases List.mem_append.mp hp with h1 | h2
          · exact a5 p h1
          · exact b5 p h2
        · intro hp
          obtain ⟨hp1, hp2⟩ := List.append_eq_nil.mp hp
          rw [a6 hp1, b6 hp2]
          rfl
    · intro key value hval idx parts ps idx' h
      by_cases hk : key = "$and" ∨ key = "$or"
      · rw [buildWhereEntry.eq_def, if_pos hk] at h
        cases value with
        | arr subs =>
          have hc : paramCountEntry key (JsVal.arr subs) = paramCountSubs subs := by
            simp [paramCountEntry, hk]
          rw [hc]
          cases subs with
          | nil =>
            simp only [Except.ok.injEq, Prod.mk.injEq] at h
            obtain ⟨rfl, rfl, rfl⟩ := h
            simp [paramCountSubs, KeysFrom]
          | cons sub rest =>
            obtain ⟨⟨subParts, prms, idxg⟩, hG, hk2⟩ := except_bind_ok h
            dsimp only at hk2
            have hszg : sizeOf (sub :: rest) < sizeOf (JsVal.arr (sub :: rest)) := by
              simp only [JsVal.arr.sizeOf_spec]
              omega
            obtain ⟨g1, g2, g3, g4, g5, g6⟩ :=
              (ih _ hval).2.2.2.1 (sub :: rest) hszg idx subParts prms idxg hG
            by_cases hsp : subParts.isEmpty
            · rw [if_pos hsp] at hk2
              simp only [Except.ok.injEq, Prod.mk.injEq] at hk2
              obtain ⟨rfl, rfl, rfl⟩ := hk2
              have hsub : subParts = [] := List.isEmpty_iff.mp hsp
              refine ⟨g1, g2, g3, g4, by simp, fun _ => g6 hsub⟩
            · rw [if_neg hsp] at hk2
              simp only [Except.ok.injEq, Prod.mk.injEq] at hk2
              obtain ⟨rfl, rfl, rfl⟩ := hk2
              obtain ⟨p0, pt, hpt⟩ : ∃ p0 pt, subParts = p0 :: pt := by
                cases subParts with
                | nil => exact absurd rfl hsp
                | cons a t => exact ⟨a, t, rfl⟩
              refine ⟨g1, g2, g3, g4, ?_, by simp⟩
              intro p hp
              simp only [List.mem_singleton] at hp
              subst hp
              by_cases hlen : subParts.length > 1
              · rw [if_pos hlen]
                exact str_append_ne_empty _ _ (by decide)
              · rw [if_neg hlen]
                rw [hpt]
                exact joinParts_ne_empty _ p0 pt (g5 p0 (hpt ▸ List.mem_cons_self p0 pt))
        | null =>
          simp only [Except.ok.injEq, Prod.mk.injEq] at h
          obtain ⟨rfl, rfl, rfl⟩ := h
          simp [paramCountEntry, hk, KeysFrom]
        | undef =>
          simp only [Except.ok.injEq, Prod.mk.injEq] at h
          obtain ⟨rfl, rfl, rfl⟩ := h
          simp [paramCountEntry, hk, KeysFrom]
        | bool b =>
          simp only [Except.ok.injEq, Prod.mk.injEq] at h
          obtain ⟨rfl, rfl, rfl⟩ := h
          simp [paramCountEntry, hk, KeysFrom]
        | num n0 =>
          simp only [Except.ok.injEq, Prod.mk.injEq] at h
          obtain ⟨rfl, rfl, rfl⟩ := h
          simp [paramCountEntry, hk, KeysFrom]
        | str s0 =>
          simp only [Except.ok.injEq, Prod.mk.injEq] at h
          obtain ⟨rfl, rfl, rfl⟩ := h
          simp [paramCountEntry, hk, KeysFrom]
        | obj ops =>
          simp only [Except.ok.injEq, Prod.mk.injEq] at h
          obtain ⟨rfl, rfl, rfl⟩ := h
          simp [paramCountEntry, hk, KeysFrom]
      · cases value with
        | obj ops =>
          rw [buildWhereEntry.eq_def, if_neg hk] at h
          dsimp only at h
          have hc : paramCountEntry key (JsVal.obj ops) = paramCountOps ops := by
            simp [paramCountEntry, hk]
          rw [hc]
          have hszo : sizeOf ops < sizeOf (JsVal.obj ops) := by
            simp only [JsVal.obj.sizeOf_spec]
            omega
          exact (ih _ hval).2.2.2.2 key ops hszo idx parts ps idx' h
        | null =>
          have hc : paramCountEntry key JsVal.null = leafParamCount JsVal.null .EQ := by
            simp [paramCountEntry, hk]
          rw [hc]
          exact leaf_entry_spec ctx key JsVal.null idx parts ps idx' hk
            (fun _ hcon => JsVal.noConfusion hcon) h
        | undef =>
          have hc : paramCountEntry key JsVal.undef = leafParamCount JsVal.undef .EQ := by
            simp [paramCountEntry, hk]
          rw [hc]
          exact leaf_entry_spec ctx key JsVal.undef idx parts ps idx' hk
            (fun _ hcon => JsVal.noConfusion hcon) h
        | bool b =>
          have hc : paramCountEntry key (JsVal.bool b) = leafParamCount (JsVal.bool b) .EQ := by
            simp [paramCountEntry, hk]
          rw [hc]
          exact leaf_entry_spec ctx key (JsVal.bool b) idx parts ps idx' hk
            (fun _ hcon => JsVal.noConfusion hcon) h
        | num n0 =>
          have hc : paramCountEntry key (JsVal.num n0) = leafParamCount (JsVal.num n0) .EQ := by
            simp [paramCountEntry, hk]
          rw [hc]
          exact leaf_entry_spec ctx key (JsVal.num n0) idx parts ps idx' hk
            (fun _ hcon => JsVal.noConfusion hcon) h
        | str s0 =>
          have hc : paramCountEntry key (JsVal.str s0) = leafParamCount (JsVal.str s0) .EQ := by
            simp [paramCountEntry, hk]
          rw [hc]
          exact leaf_entry_spec ctx key (JsVal.str s0) idx parts ps idx' hk
            (fun _ hcon => JsVal.noConfusion hcon) h
        | arr xs =>
          have hc : paramCountEntry key (JsVal.arr xs) = leafParamCount (JsVal.arr xs) .EQ := by
            simp [paramCountEntry, hk]
          rw [hc]
          exact leaf_entry_spec ctx key (JsVal.arr xs) idx parts ps idx' hk
            (fun _ hcon => JsVal.noConfusion hcon) h
    · intro subs hsubs idx parts ps idx' h
      cases subs with
      | nil =>
        simp only [buildWhereGroup, Except.ok.injEq, Prod.mk.injEq] at h
        obtain ⟨rfl, rfl, rfl⟩ := h
        simp [paramCountSubs, KeysFrom]
      | cons sub rest =>
        simp only [buildWhereGroup] at h
        obtain ⟨⟨q1, prms1, idx1⟩, hS, hk⟩ := except_bind_ok h
        obtain ⟨⟨parts2, ps2, idx2⟩, hR, hk2⟩ := except_bind_ok hk
        dsimp only at hk2
        simp only [Except.ok.injEq, Prod.mk.injEq] at hk2
        obtain ⟨rfl, rfl, rfl⟩ := hk2
        have hszs : sizeOf sub < sizeOf (sub :: rest) := by
          simp only [List.cons.sizeOf_spec]
          omega
        have hszr : sizeOf rest < sizeOf (sub :: rest) := by
          simp only [List.cons.sizeOf_spec]
          omega
        obtain ⟨s1, s2, s3, s4, s5⟩ := (ih _ hsubs).1 sub hszs idx q1 prms1 idx1 hS
        obtain ⟨r1, r2, r3, r4, r5, r6⟩ :=
          (ih _ hsubs).2.2.2.1 rest hszr idx1 parts2 ps2 _ hR
        have hps : (if q1 = "" then ([] : Params) else prms1) = prms1 := by
          by_cases hq : q1 = ""
          · rw [if_pos hq, s5 hq]
          · rw [if_neg hq]
        rw [hps]
        refine ⟨le_trans s1 r1, ?_, ?_, ?_, ?_, ?_⟩
        · simp only [List.length_append, s2, r2, paramCountSubs]
        · rw [List.map_append]
          exact nodup_keys_append s4 r4 s3 r3
        · rw [List.map_append]
          exact keysFrom_append s4 r4 s1 r1
        · intro p hp
          rcases List.mem_append.mp hp with h1 | h2
          · by_cases hq : q1 = ""
            · rw [if_pos hq] at h1
              simp at h1
            · rw [if_neg hq] at h1
              simp only [List.mem_singleton] at h1
              subst h1
              exact str_append_ne_empty _ _ (by decide)
          · exact r5 p h2
        · intro hp
          obtain ⟨hp1, hp2⟩ := List.append_eq_nil.mp hp
          have hq : q1 = "" := by
            by_cases hq : q1 = ""
            · exact hq
            · rw [if_neg hq] at hp1
              simp at hp1
          rw [s5 hq, r6 hp2]
          rfl
    · intro key ops hops idx parts ps idx' h
      cases ops with
      | nil =>
        simp only [buildWhereOperators, Except.ok.injEq, Prod.mk.injEq] at h
        obtain ⟨rfl, rfl, rfl⟩ := h
        simp [paramCountOps, KeysFrom]
      | cons ov rest =>
        obtain ⟨opKey, val⟩ := ov
        simp only [buildWhereOperators] at h
        obtain ⟨⟨q1, prms1⟩, hP, hk⟩ := except_bind_ok h
        obtain ⟨⟨parts2, ps2, idx2⟩, hR, hk2⟩ := except_bind_ok hk
        dsimp only at hk2
        simp only [Except.ok.injEq, Prod.mk.injEq] at hk2
        obtain ⟨rfl, rfl, rfl⟩ := hk2
        obtain ⟨pq, plen, pshape⟩ := parse_ok_spec ctx idx _ val (opOfString opKey) q1 prms1 hP
        obtain ⟨pn, pk⟩ := leaf_keys_spec ctx.pfx idx pshape
        have hszr : sizeOf rest < sizeOf ((opKey, val) :: rest) := by
          simp only [List.cons.sizeOf_spec]
          omega
        obtain ⟨r1, r2, r3, r4, r5, r6⟩ :=
          (ih _ hops).2.2.2.2 key rest hszr (idx + 1) parts2 ps2 _ hR
        simp only [if_neg pq]
        refine ⟨by omega, ?_, ?_, ?_, ?_, ?_⟩
        · simp only [paramCountOps, List.length_append, plen, r2]
        · rw [List.map_append]
          exact nodup_keys_append pk r4 pn r3
        · rw [List.map_append]
          exact keysFrom_append pk r4 (by omega) r1
        · intro p hp
          rcases List.mem_append.mp hp with h1 | h2
          · simp only [List.mem_singleton] at h1
            subst h1
            exact pq
          · exact r5 p h2
        · intro hp
          simp at hp

/-- The compile invariant at the top recursion entry. -/
theorem bwqap_paramSpec (ctx : WhereCtx) (v : JsVal) (idx : Nat) (q : String)
    (ps : Params) (idx' : Nat)
    (h : buildWhereQueryAndParams ctx v idx = .ok (q, ps, idx')) :
    idx ≤ idx' ∧ ps.length = paramCountVal v ∧ (ps.map Prod.fst).Nodup
      ∧ KeysFrom ctx.pfx idx idx' (ps.map Prod.fst) ∧ (q = "" → ps = []) :=
  (paramSpec_strong ctx (sizeOf v + 1)).1 v (by omega) idx q ps idx' h

theorem decRepr_zero : decRepr 0 = "0" := by
  simp [decRepr, decDigits]
  rfl

theorem decRepr_one : decRepr 1 = "1" := by
  simp [decRepr, decDigits]
  rfl

theorem decRepr_two : decRepr 2 = "2" := by
  simp [decRepr, decDigits]
  rfl

/-- C5: within one compile invocation every emitted comparison allocates a
fresh parameter name from the single incrementing counter: a successful
compile of any filter yields a parameter map with exactly `paramCountVal`
entries — one key per single-parameter comparison leaf, two keys `<p>_0`,
`<p>_1` per BETWEEN/NOT BETWEEN leaf, none for the parameterless null and
boolean operators and the guarded empty-`IN` case, per `leafParamCount` —
and its keys are pairwise distinct even when the same field/operator pair
occurs multiple times. -/
theorem parameter_uniqueness (ctx : WhereCtx) (cond : JsVal) (idx : Nat) (q : String)
    (ps : Params) (idx' : Nat)
    (h : buildWhereQueryAndParams ctx cond idx = .ok (q, ps, idx')) :
    ps.length = paramCountVal cond ∧ (ps.map Prod.fst).Nodup :=
  ⟨(bwqap_paramSpec ctx cond idx q ps idx' h).2.1,
    (bwqap_paramSpec ctx cond idx q ps idx' h).2.2.1⟩

def ctxEx2 : WhereCtx := { dbType := "x", getFieldWithAlias := fun f => f }

/-- The same field `t` with two operators plus a BETWEEN leaf. -/
def condC5Ex : JsVal := .obj [("t", .obj [("$gte", .num 5), ("$lte", .num 9)]),
  ("r", .obj [("$between", .arr [.num 1, .num 2])])]

def psC5Ex : Params := [("where_param_0", .num 5), ("where_param_1", .num 9),
  ("where_param_2_0", .num 1), ("where_param_2_1", .num 2)]

theorem joinParts_nil (sep : String) : joinParts sep [] = "" := rfl

theorem joinParts_cons (sep h : String) (t : List String) :
    joinParts sep (h :: t) = t.foldl (fun acc s => acc ++ sep ++ s) h := rfl

set_option maxRecDepth 4000 in
set_option maxHeartbeats 1000000 in
theorem parameter_uniqueness_witness :
    buildWhereQueryAndParams ctxEx2 condC5Ex 0 = .ok
      ("t >= :where_param_0 AND t <= :where_param_1 AND r BETWEEN :where_param_2_0 AND :where_param_2_1",
        psC5Ex, 3)
    ∧ psC5Ex.length = paramCountVal condC5Ex ∧ (psC5Ex.map Prod.fst).Nodup := by
  have hcomp : buildWhereQueryAndParams ctxEx2 condC5Ex 0 = .ok
      ("t >= :where_param_0 AND t <= :where_param_1 AND r BETWEEN :where_param_2_0 AND :where_param_2_1",
        psC5Ex, 3) := by
    simp [buildWhereQueryAndParams, buildWhereEntries, buildWhereEntry, buildWhereOperators,
      parseWhereObjectToQueryAndParams, opOfString, joinParts_nil, joinParts_cons, destructurePair,
      bind, Except.bind, ctxEx2, condC5Ex, psC5Ex, decRepr_zero, decRepr_one, decRepr_two]
    rw [show ("where_param_" ++ "0" : String) = "where_param_0" from rfl,
        show ("where_param_" ++ "1" : String) = "where_param_1" from rfl,
        show ("where_param_" ++ "2" : String) = "where_param_2" from rfl]
    simp [joinParts_cons]
  exact ⟨hcomp, parameter_uniqueness ctxEx2 condC5Ex 0 _ psC5Ex 3 hcomp⟩


/-! ## Claim theorems: join planner closure and ordering (C1) -/


theorem splitOnP_sep_not_mem {α : Type} (p : α → Bool) :
    ∀ (xs : List α), ∀ l ∈ xs.splitOnP p, ∀ a ∈ l, p a = false := by
  intro xs
  induction xs with
  | nil =>
    intro l hl a ha
    simp only [List.splitOnP_nil, List.mem_singleton] at hl
    subst hl
    simp at ha
  | cons x xs ih =>
    intro l hl a ha
    rw [List.splitOnP_cons] at hl
    by_cases hx : p x
    · rw [if_pos hx] at hl
      rcases List.mem_cons.mp hl with h | h
      · subst h; simp at ha
      · exact ih l h a ha
    · rw [if_neg hx] at hl
      rcases hsp : xs.splitOnP p with _ | ⟨h₀, t⟩
      · exact absurd hsp (List.splitOnP_ne_nil p xs)
      · rw [hsp] at hl
        simp only [List.modifyHead] at hl
        rcases List.mem_cons.mp hl with h | h
        · subst h
          rcases List.mem_cons.mp ha with h' | h'
          · subst h'; exact Bool.eq_false_iff.mpr hx
          · exact ih h₀ (by rw [hsp]; exact List.mem_cons_self _ _) a h'
        · exact ih l (by rw [hsp]; exact List.mem_cons_of_mem _ h) a ha

theorem dot_not_mem_segsOf (q : String) : ∀ s ∈ segsOf q, '.' ∉ s.data := by
  intro s hs hdot
  rcases List.mem_map.mp hs with ⟨l, hl, rfl⟩
  have := splitOnP_sep_not_mem (· == '.') q.data l (by simpa [List.splitOn] using hl) '.' hdot
  simp at this

theorem segsOf_ne_nil (q : String) : segsOf q ≠ [] := by
  unfold segsOf
  intro h
  rcases List.map_eq_nil_iff.mp h with h'
  have h2 : q.data.splitOnP (· == '.') = [] := by simpa [List.splitOn] using h'
  exact List.splitOnP_ne_nil _ _ h2

theorem dotJoin_segsOf (q : String) : dotJoin (segsOf q) = q := by
  unfold dotJoin segsOf
  rw [List.map_map]
  have hcomp : (String.data ∘ String.mk) = id := funext fun l => rfl
  rw [hcomp, List.map_id]
  rw [List.intercalate_splitOn]

theorem segsOf_dotJoin (parts : List String) (hne : parts ≠ [])
    (hdot : ∀ s ∈ parts, '.' ∉ s.data) : segsOf (dotJoin parts) = parts := by
  unfold segsOf dotJoin
  have hx : ∀ l ∈ parts.map String.data, '.' ∉ l := by
    intro l hl
    rcases List.mem_map.mp hl with ⟨s, hs, rfl⟩
    exact hdot s hs
  have hls : parts.map String.data ≠ [] := by simpa using hne
  rw [show (String.mk (List.intercalate ['.'] (parts.map String.data))).data
      = List.intercalate ['.'] (parts.map String.data) from rfl]
  rw [List.splitOn_intercalate _ '.' hx hls, List.map_map]
  have hcomp : (String.mk ∘ String.data) = id := funext fun s => rfl
  rw [hcomp, List.map_id]

theorem segsOf_dotJoin_take (q : String) (n : Nat) (hn : 0 < n) :
    segsOf (dotJoin ((segsOf q).take n)) = (segsOf q).take n := by
  apply segsOf_dotJoin
  · intro h
    rcases List.take_eq_nil_iff.mp h with h0 | h0
    · omega
    · exact segsOf_ne_nil q h0
  · intro s hs
    exact dot_not_mem_segsOf q s (List.mem_of_mem_take hs)

theorem pathDepth_dotJoin_take (q : String) (i : Nat) (h : i < (segsOf q).length) :
    pathDepth (dotJoin ((segsOf q).take (i + 1))) = i + 1 := by
  unfold pathDepth
  rw [segsOf_dotJoin_take q (i + 1) (Nat.succ_pos i), List.length_take]
  omega

theorem mem_prefixPaths {p q : String} :
    p ∈ prefixPaths q ↔ ∃ i, i < (segsOf q).length ∧ p = dotJoin ((segsOf q).take (i + 1)) := by
  simp only [prefixPaths, List.mem_map, List.mem_range]
  constructor
  · rintro ⟨i, hi, rfl⟩
    exact ⟨i, hi, rfl⟩
  · rintro ⟨i, hi, rfl⟩
    exact ⟨i, hi, rfl⟩

theorem self_mem_prefixPaths (q : String) : q ∈ prefixPaths q := by
  rw [mem_prefixPaths]
  have hlen : 0 < (segsOf q).length := List.length_pos.mpr (segsOf_ne_nil q)
  refine ⟨(segsOf q).length - 1, by omega, ?_⟩
  rw [show (segsOf q).length - 1 + 1 = (segsOf q).length from by omega, List.take_length,
    dotJoin_segsOf]

theorem prefixPaths_sub {p q : String} (h : p ∈ prefixPaths q) :
    prefixPaths p ⊆ prefixPaths q := by
  rw [mem_prefixPaths] at h
  rcases h with ⟨i, hi, rfl⟩
  intro r hr
  rw [mem_prefixPaths] at hr ⊢
  rcases hr with ⟨j, hj, rfl⟩
  rw [segsOf_dotJoin_take q (i + 1) (Nat.succ_pos i)] at hj ⊢
  rw [List.length_take] at hj
  refine ⟨j, by omega, ?_⟩
  rw [List.take_take]
  congr 2
  omega

theorem pathDepth_lt_of_ancestor {p q : String} (h : p ∈ prefixPaths q) (hne : p ≠ q) :
    pathDepth p < pathDepth q := by
  rw [mem_prefixPaths] at h
  rcases h with ⟨i, hi, rfl⟩
  rw [pathDepth_dotJoin_take q i hi]
  show i + 1 < (segsOf q).length
  rcases Nat.lt_or_ge (i + 1) (segsOf q).length with h' | h'
  · exact h'
  · exfalso
    apply hne
    rw [show i + 1 = (segsOf q).length from by omega, List.take_length, dotJoin_segsOf]

theorem mem_collectAllNeededRelations (paths : List String) (f : String) :
    f ∈ collectAllNeededRelations paths ↔ ∃ q ∈ paths, f ∈ prefixPaths q := by
  suffices h : ∀ init : List String,
      f ∈ paths.foldl (fun acc p => (prefixPaths p).foldl setAdd acc) init ↔
      f ∈ init ∨ ∃ q ∈ paths, f ∈ prefixPaths q by
    simpa [collectAllNeededRelations] using h []
  intro init
  induction paths generalizing init with
  | nil => simp
  | cons a as ih =>
    rw [List.foldl_cons, ih, mem_foldl_setAdd]
    simp only [List.mem_cons]
    constructor
    · rintro ((h | h) | ⟨q, hq, hfq⟩)
      · exact Or.inl h
      · exact Or.inr ⟨a, Or.inl rfl, h⟩
      · exact Or.inr ⟨q, Or.inr hq, hfq⟩
    · rintro (h | ⟨q, (rfl | hq), hfq⟩)
      · exact Or.inl (Or.inl h)
      · exact Or.inl (Or.inr hfq)
      · exact Or.inr ⟨q, hq, hfq⟩

theorem nodup_collectAllNeededRelations (paths : List String) :
    (collectAllNeededRelations paths).Nodup := by
  suffices h : ∀ init : List String, init.Nodup →
      (paths.foldl (fun acc p => (prefixPaths p).foldl setAdd acc) init).Nodup by
    exact h [] List.nodup_nil
  induction paths with
  | nil => intro init hinit; exact hinit
  | cons a as ih => intro init hinit; exact ih _ (nodup_foldl_setAdd _ _ hinit)

theorem insertByDepth_perm (x : String) (l : List String) : List.Perm (insertByDepth x l) (x :: l) := by
  induction l with
  | nil => exact List.Perm.refl _
  | cons y ys ih =>
    rw [insertByDepth]
    by_cases h : pathDepth y ≤ pathDepth x
    · rw [if_pos h]
      exact (ih.cons y).trans (List.Perm.swap x y ys)
    · rw [if_neg h]

theorem sortByDepth_perm (l : List String) : List.Perm (sortByDepth l) l := by
  suffices h : ∀ acc : List String,
      List.Perm (List.foldl (fun acc x => insertByDepth x acc) acc l) (acc ++ l) by
    simpa [sortByDepth] using h []
  induction l with
  | nil => intro acc; simp
  | cons x xs ih =>
    intro acc
    rw [List.foldl_cons]
    exact (ih _).trans (((insertByDepth_perm x acc).append_right xs).trans
      List.perm_middle.symm)

theorem mem_insertByDepth {x b : String} {l : List String} :
    b ∈ insertByDepth x l ↔ b = x ∨ b ∈ l := by
  induction l with
  | nil => simp [insertByDepth]
  | cons y ys ih =>
    rw [insertByDepth]
    by_cases h : pathDepth y ≤ pathDepth x
    · rw [if_pos h]
      simp only [List.mem_cons, ih]
      tauto
    · rw [if_neg h]
      simp only [List.mem_cons]

theorem pairwise_insertByDepth {x : String} {l : List String}
    (h : l.Pairwise (fun a b => pathDepth a ≤ pathDepth b)) :
    (insertByDepth x l).Pairwise (fun a b => pathDepth a ≤ pathDepth b) := by
  induction l with
  | nil => simp [insertByDepth]
  | cons y ys ih =>
    rw [insertByDepth]
    rcases List.pairwise_cons.mp h with ⟨hy, hys⟩
    by_cases hc : pathDepth y ≤ pathDepth x
    · rw [if_pos hc]
      refine List.pairwise_cons.mpr ⟨?_, ih hys⟩
      intro b hb
      rcases mem_insertByDepth.mp hb with rfl | hb'
      · exact hc
      · exact hy b hb'
    · rw [if_neg hc]
      push_neg at hc
      refine List.pairwise_cons.mpr ⟨?_, h⟩
      intro b hb
      rcases List.mem_cons.mp hb with rfl | hb'
      · exact Nat.le_of_lt hc
      · exact Nat.le_trans (Nat.le_of_lt hc) (hy b hb')

theorem pairwise_sortByDepth (l : List String) :
    (sortByDepth l).Pairwise (fun a b => pathDepth a ≤ pathDepth b) := by
  suffices h : ∀ acc : List String, acc.Pairwise (fun a b => pathDepth a ≤ pathDepth b) →
      (List.foldl (fun acc x => insertByDepth x acc) acc l).Pairwise
        (fun a b => pathDepth a ≤ pathDepth b) by
    simpa [sortByDepth] using h [] List.Pairwise.nil
  induction l with
  | nil => intro acc hacc; exact hacc
  | cons x xs ih => intro acc hacc; exact ih _ (pairwise_insertByDepth hacc)

theorem pairwise_index_lt {l : List String}
    (hpw : l.Pairwise (fun a b => pathDepth a ≤ pathDepth b))
    {i j : Nat} (hi : i < l.length) (hj : j < l.length)
    (h : pathDepth (l.get ⟨i, hi⟩) < pathDepth (l.get ⟨j, hj⟩)) : i < j := by
  by_contra hc
  push_neg at hc
  rcases Nat.eq_or_lt_of_le hc with heq | hlt
  · subst heq
    exact Nat.lt_irrefl _ h
  · have hji : (⟨j, hj⟩ : Fin l.length) < ⟨i, hi⟩ := hlt
    have := List.pairwise_iff_get.mp hpw ⟨j, hj⟩ ⟨i, hi⟩ hji
    omega

/-- The join record `setJoin` appends for one relation path: the single-segment
branch joins `allowedRelation.path` under the path itself as alias, the nested
branch joins `parentAlias.relationName` under the dot-to-underscore alias. -/
def emitJoin (resolver : Resolver) (options : RelationObjectValue) (name : String) : Join :=
  match segsOf name with
  | [_] =>
    { joinType := if options.joinType = some JoinType.inner then JoinType.inner else .left,
      path := ((resolver name).map RelationMeta.path).getD "",
      joinAlias := name }
  | segments =>
    { joinType := if options.joinType = some JoinType.inner then JoinType.inner else .left,
      path := joinParts "_" segments.dropLast ++ "." ++ segments.getLastD "",
      joinAlias := String.mk (name.data.map (fun c => if c = '.' then '_' else c)) }

/-- The local `allNeededRelations` of `JoinQueryBuilder.build`. -/
def allNeededRelations (config : RelationOptions) : List String :=
  collectAllNeededRelations ((parseJoinConfig config).map Prod.fst)

/-- The local `sortedRelations` of `JoinQueryBuilder.build`. -/
def sortedRelations (config : RelationOptions) : List String :=
  sortByDepth (allNeededRelations config)

theorem setJoin_ok (resolver : Resolver) (name : String) (options : RelationObjectValue)
    (st : JoinState) (h : (segsOf name).length = 1 → (resolver name).isSome) :
    ∃ st', setJoin resolver name options st = .ok st' ∧
      st'.joins = st.joins ++ [emitJoin resolver options name] := by
  rcases hok : setJoin resolver name options st with e | st'
  case error =>
    exfalso
    rcases hseg : segsOf name with _ | ⟨s, _ | ⟨s2, rest⟩⟩
    · rcases hr : resolver name with _ | m
      · simp [setJoin, hseg, hr] at hok
      · simp [setJoin, hseg, hr] at hok
        split at hok <;> simp at hok
    · have hsome : (resolver name).isSome := h (by rw [hseg]; rfl)
      rcases hr : resolver name with _ | m
      · rw [hr] at hsome; simp at hsome
      · simp [setJoin, hseg, hr] at hok
    · rcases hr : resolver name with _ | m
      · simp [setJoin, hseg, hr] at hok
      · simp [setJoin, hseg, hr] at hok
        split at hok <;> simp at hok
  case ok =>
    refine ⟨st', rfl, ?_⟩
    rcases hseg : segsOf name with _ | ⟨s, _ | ⟨s2, rest⟩⟩
    · rcases hr : resolver name with _ | m
      · simp only [setJoin, hseg, hr, Except.ok.injEq] at hok
        rw [← hok]
        simp [emitJoin, hseg, hr]
      · simp only [setJoin, hseg, hr] at hok
        split at hok <;>
          (simp only [Except.ok.injEq] at hok; rw [← hok]; simp [emitJoin, hseg, hr])
    · have hsome : (resolver name).isSome := h (by rw [hseg]; rfl)
      rcases hr : resolver name with _ | m
      · rw [hr] at hsome; simp at hsome
      · simp only [setJoin, hseg, hr, Except.ok.injEq] at hok
        rw [← hok]
        simp [emitJoin, hseg, hr]
    · rcases hr : resolver name with _ | m
      · simp only [setJoin, hseg, hr, Except.ok.injEq] at hok
        rw [← hok]
        simp [emitJoin, hseg, hr]
      · simp only [setJoin, hseg, hr] at hok
        split at hok <;>
          (simp only [Except.ok.injEq] at hok; rw [← hok]; simp [emitJoin, hseg, hr])

theorem processRelations_ok (resolver : Resolver) (jc : List (String × RelConfig)) :
    ∀ (l : List String) (st : JoinState),
    (∀ p ∈ l, (segsOf p).length = 1 → (resolver p).isSome) →
    ∃ st', processRelations resolver jc l st = .ok st' ∧
      st'.joins = st.joins ++ l.map (fun p => emitJoin resolver (effectiveOptions jc p) p) := by
  intro l
  induction l with
  | nil =>
    intro st h
    exact ⟨st, rfl, by simp⟩
  | cons p rest ih =>
    intro st h
    obtain ⟨st1, h1, hj1⟩ :=
      setJoin_ok resolver p (effectiveOptions jc p) st (h p (List.mem_cons_self p rest))
    obtain ⟨st', h2, hj2⟩ := ih st1 (fun q hq => h q (List.mem_cons_of_mem _ hq))
    refine ⟨st', ?_, ?_⟩
    · simp [processRelations, h1, h2, bind, Except.bind]
    · rw [hj2, hj1, List.map_cons]
      simp

theorem joinBuild_ok (resolver : Resolver) (config : RelationOptions) (st : JoinState)
    (hres : ∀ p ∈ allNeededRelations config, (segsOf p).length = 1 → (resolver p).isSome) :
    ∃ st', joinBuild resolver config st = .ok st' ∧
      st'.joins = st.joins ++ (sortedRelations config).map
        (fun p => emitJoin resolver (effectiveOptions (parseJoinConfig config) p) p) := by
  have hs : ∀ p ∈ sortedRelations config, (segsOf p).length = 1 → (resolver p).isSome := by
    intro p hp
    exact hres p ((sortByDepth_perm (allNeededRelations config)).mem_iff.mp hp)
  obtain ⟨st', h1, h2⟩ :=
    processRelations_ok resolver (parseJoinConfig config) (sortedRelations config) st hs
  refine ⟨st', ?_, h2⟩
  simpa [joinBuild, sortedRelations, allNeededRelations] using h1

/-- C1: a successful `build` appends exactly one join per path of the prefix
closure of the configured relation paths, in the planner's depth-ascending
order.  The closure contains a path iff it is a dotted prefix of some
configured path, is duplicate-free and closed under dotted prefixes; the
emission order is a depth-sorted permutation of the closure, so a path that is
a proper dotted prefix of another is always emitted strictly earlier (every
parent join precedes its children); and each emitted join takes the default
left-join configuration when its path was synthesized (absent from the caller
config) but keeps the caller's explicit configuration when present. -/
theorem join_planner_closure_and_order (resolver : Resolver) (config : RelationOptions)
    (st : JoinState)
    (hres : ∀ p ∈ allNeededRelations config, (segsOf p).length = 1 → (resolver p).isSome) :
    (∃ st', joinBuild resolver config st = .ok st' ∧
      st'.joins = st.joins ++ (sortedRelations config).map
        (fun p => emitJoin resolver (effectiveOptions (parseJoinConfig config) p) p))
    ∧ (∀ p, p ∈ allNeededRelations config ↔
        ∃ q ∈ (parseJoinConfig config).map Prod.fst, p ∈ prefixPaths q)
    ∧ (allNeededRelations config).Nodup
    ∧ List.Perm (sortedRelations config) (allNeededRelations config)
    ∧ (sortedRelations config).Pairwise (fun a b => pathDepth a ≤ pathDepth b)
    ∧ (∀ q ∈ allNeededRelations config, prefixPaths q ⊆ allNeededRelations config)
    ∧ (∀ i j (hi : i < (sortedRelations config).length)
        (hj : j < (sortedRelations config).length),
        (sortedRelations config).get ⟨i, hi⟩ ∈ prefixPaths ((sortedRelations config).get ⟨j, hj⟩) →
        (sortedRelations config).get ⟨i, hi⟩ ≠ (sortedRelations config).get ⟨j, hj⟩ → i < j)
    ∧ (∀ p, (parseJoinConfig config).lookup p = none →
        effectiveOptions (parseJoinConfig config) p = { joinType := some JoinType.left })
    ∧ (∀ p c, (parseJoinConfig config).lookup p = some (RelConfig.cfg c) →
        effectiveOptions (parseJoinConfig config) p =
          { c with joinType := some (c.joinType.getD JoinType.left) }) := by
  refine ⟨joinBuild_ok resolver config st hres, ?_, ?_, ?_, ?_, ?_, ?_, ?_, ?_⟩
  · intro p
    exact mem_collectAllNeededRelations _ p
  · exact nodup_collectAllNeededRelations _
  · exact sortByDepth_perm _
  · exact pairwise_sortByDepth _
  · intro q hq p hp
    rcases (mem_collectAllNeededRelations _ q).mp hq with ⟨k, hk, hqk⟩
    exact (mem_collectAllNeededRelations _ p).mpr ⟨k, hk, prefixPaths_sub hqk hp⟩
  · intro i j hi hj hpre hne
    exact pairwise_index_lt (pairwise_sortByDepth _) hi hj
      (pathDepth_lt_of_ancestor hpre hne)
  · intro p hl
    simp [effectiveOptions, hl]
  · intro p c hl
    simp [effectiveOptions, hl]

def configC1 : RelationOptions :=
  .obj [("a.b.c", .bool true), ("a", .cfg { joinType := some JoinType.inner })]

def resolverC1 : Resolver := fun p =>
  if p = "a" then some (RelationMeta.mk "Root.a" ["x"] ["id"]) else none

theorem join_planner_closure_and_order_witness :
    (∀ p ∈ allNeededRelations configC1, (segsOf p).length = 1 → (resolverC1 p).isSome)
    ∧ (∃ st', joinBuild resolverC1 configC1 { joins := [], selectedFields := [] } = .ok st' ∧
        st'.joins = ({ joins := [], selectedFields := [] } : JoinState).joins
          ++ (sortedRelations configC1).map
            (fun p => emitJoin resolverC1 (effectiveOptions (parseJoinConfig configC1) p) p))
    ∧ sortedRelations configC1 = ["a", "a.b", "a.b.c"]
    ∧ effectiveOptions (parseJoinConfig configC1) "a" =
        { select := none, joinType := some JoinType.inner }
    ∧ effectiveOptions (parseJoinConfig configC1) "a.b" = { joinType := some JoinType.left } := by
  have hjc : parseJoinConfig configC1 =
      [("a.b.c", .bool true), ("a", RelConfig.cfg { joinType := some JoinType.inner })] := by
    simp [configC1, parseJoinConfig]
  have hclos : allNeededRelations configC1 = ["a", "a.b", "a.b.c"] := by
    simp only [allNeededRelations, hjc]
    rfl
  have hsort : sortedRelations configC1 = ["a", "a.b", "a.b.c"] := by
    simp only [sortedRelations, hclos]
    rfl
  have hres : ∀ p ∈ allNeededRelations configC1, (segsOf p).length = 1 → (resolverC1 p).isSome := by
    rw [hclos]
    decide
  refine ⟨hres,
    (join_planner_closure_and_order resolverC1 configC1 { joins := [], selectedFields := [] } hres).1,
    hsort, ?_, ?_⟩
  · rw [effectiveOptions, hjc]
    rfl
  · rw [effectiveOptions, hjc]
    rfl

end NestCrud
